import Mathlib

/-!
Verification development for the core of a SPARQL engine: the cost-based
dynamic-programming query planner (`QueryPlanner.cpp`) and the result
exporter (`ExportQueryExecutionTrees.cpp`).

The planner part is a shallow embedding of `QueryPlanner.cpp`: the triple
graph, the seed plans, the DP-table enumeration (`fillDpTab`), the merge
step with its pruning map, and filter injection.  The physical operators
(scans, sorts, joins, text operations) live outside the sources under
verification; the planner only observes their cost/size estimates, their
sort column, their variable-column map and their kind, so those observable
fields are modelled from the specification and carried inside a flat
`QET` record.
-/

namespace QP

/-- One triple pattern of the WHERE clause (`SparqlTriple` with fields
`_s`, `_p`, `_o`). -/
structure SparqlTriple where
  s : String
  p : String
  o : String
deriving DecidableEq, Inhabited, Repr

/-- One filter of the parsed query (`SparqlFilter` with `_lhs`, `_rhs`,
`_type`; the operator type is opaque to the planner logic modelled here). -/
structure SparqlFilter where
  lhs : String
  rhs : String
  ftype : Nat := 0
deriving DecidableEq, Inhabited, Repr

/-- One ORDER BY key of the parsed query. -/
structure OrderByKey where
  key : String
  desc : Bool := false
deriving DecidableEq, Inhabited, Repr

/-- The parts of `ParsedQuery` that the planner reads. -/
structure ParsedQuery where
  whereClauseTriples : List SparqlTriple := []
  filters : List SparqlFilter := []
  orderBy : List OrderByKey := []
  distinct : Bool := false
  selectedVariables : List String := []
  textLimit : String := ""
deriving DecidableEq, Inhabited, Repr

/-- `QueryPlanner::isVariable`: a term is a variable iff it starts with
a question mark (written on the character list so that concrete instances
evaluate inside the kernel). -/
def isVariable (elem : String) : Bool :=
  match elem.data with
  | c :: _ => c = '?'
  | [] => false

/-- Insert a string into a list acting as a set (membership test before
append); used to model the C++ `unordered_set<string>` contents in a
deterministic insertion order. -/
def insertUnique (l : List String) (x : String) : List String :=
  if x ∈ l then l else l ++ [x]

/-- Variable set of a triple: the components that are variables
(`TripleGraph::Node` stores these in `_variables`). -/
def varsOfTriple (t : SparqlTriple) : List String :=
  (([t.s, t.p, t.o]).filter (fun c => isVariable c)).foldl insertUnique []

/-- One node of the triple graph (`TripleGraph::Node`): its id, its
triple, its variable set, and — for collapsed text nodes — the context
variable and the word part. -/
structure TGNode where
  id : Nat
  triple : SparqlTriple
  vars : List String
  cvar : String := ""
  wordPart : String := ""
deriving DecidableEq, Inhabited, Repr

/-- Node constructor `Node(id, triple)` for ordinary triple nodes. -/
def mkNode (id : Nat) (t : SparqlTriple) : TGNode :=
  { id := id, triple := t, vars := varsOfTriple t }

/-- The triple graph: `_nodeStorage` in id order (so `_nodeMap i` is
`nodes[i]`) and `_adjLists`. -/
structure TripleGraph where
  nodes : List TGNode := []
  adjLists : List (List Nat) := []
deriving DecidableEq, Inhabited, Repr

/-- `QueryPlanner::createTripleGraph`: insert one node per WHERE triple
in parse order; for each new node push an undirected edge (one adjacency
entry in each direction, per shared variable occurrence) to every earlier
node sharing a variable. -/
def createTripleGraph (pq : ParsedQuery) : TripleGraph :=
  pq.whereClauseTriples.foldl
    (fun tg t =>
      let nid := tg.nodes.length
      let node := mkNode nid t
      let targets := node.vars.foldl
        (fun acc v =>
          acc ++ ((List.range nid).filter
            (fun i => v ∈ (tg.nodes.getD i default).vars))) []
      let adj := tg.adjLists ++ [targets]
      let adj := targets.foldl (fun a i => a.set i ((a.getD i []) ++ [nid])) adj
      { nodes := tg.nodes ++ [node], adjLists := adj })
    {}

/-- Operation kinds of `QueryExecutionTree::OperationType`. -/
inductive OpType where
  | undefinedOp | scan | join | sort | orderBy | filter | distinct
  | textWithoutFilter | textWithFilter | textForEntities | textForContexts
deriving DecidableEq, Inhabited, Repr

/-- The four scan types the seeding code uses (`IndexScan::ScanType`). -/
inductive ScanType where
  | PSO_BOUND_S | POS_BOUND_O | PSO_FREE_S | POS_FREE_O
deriving DecidableEq, Inhabited, Repr

/-- Observable state of a `QueryExecutionTree`.  The operator classes
themselves are outside the verified sources; the planner only reads the
kind, the variable-column map, the context variables, the result sort
column, the result width and the cost/size estimates, so the tree is
modelled as a flat record of those observables (modelled from the spec,
which fixes exactly this observation interface).  The scan payload fields
mirror `IndexScan::setSubject/setPredicate/setObject`. -/
structure QET where
  opType : OpType := .undefinedOp
  scanType : Option ScanType := none
  scanSubject : Option String := none
  scanPredicate : Option String := none
  scanObject : Option String := none
  varCols : List (String × Nat) := []
  contextVars : List String := []
  sortedOn : Nat := 0
  width : Nat := 0
  sizeEst : Nat := 0
  costEst : Nat := 0
  textLimit : Nat := 1
  keepIndices : List Nat := []
deriving DecidableEq, Inhabited, Repr

/-- A plan of the DP table (`QueryPlanner::SubtreePlan`): the execution
tree built so far plus the sets of covered triple-graph nodes and covered
filters. -/
structure SubtreePlan where
  qet : QET := {}
  includedNodes : Finset Nat := ∅
  includedFilters : Finset Nat := ∅
deriving DecidableEq, Inhabited

/-- Modelled from the spec: the planner's execution context only
contributes size estimates for leaf operations (`precomputeSizeEstimate`
reads the index).  The estimate functions are parameters of the model. -/
structure QECModel where
  scanSize : ScanType → SparqlTriple → Nat := fun _ _ => 1
  textSize : String → Nat → Nat := fun _ _ => 1
deriving Inhabited

/-- Error kinds raised by the planner (`AD_THROW` exception types plus
the `AD_CHECK` assertion macros, which are modelled as an error). -/
inductive PlanError where
  | badQuery (msg : String)
  | notYetImplemented (msg : String)
  | checkFailed
deriving DecidableEq, Inhabited, Repr

/-- Cost estimate of a plan (`SubtreePlan::getCostEstimate` delegates to
the root operator of `_qet`). -/
def planCost (p : SubtreePlan) : Nat := p.qet.costEst

/-- Sorting a multiset of naturals by insertion sort is well defined (any
two representatives sort to the same list). -/
def msortNat : Multiset Nat → List Nat :=
  Quot.lift (List.insertionSort (· ≤ ·))
    (fun a b hab =>
      List.eq_of_perm_of_sorted
        ((List.perm_insertionSort _ a).trans
          ((Quotient.exact (Quotient.sound hab)).trans
            (List.perm_insertionSort _ b).symm))
        (List.sorted_insertionSort _ a) (List.sorted_insertionSort _ b))

/-- Ascending list of the elements of a finite set of naturals (the
iteration order of the C++ `std::set<size_t>`). -/
def finSort (s : Finset Nat) : List Nat := msortNat s.val

/-- `QueryPlanner::getTextLeafPlan`: the single seed plan for a collapsed
text node.  Column map: context variable at 0, its score at 1, every other
variable of the node from 2 on; `AD_CHECK(node._wordPart.size() > 0)` is
modelled as a `checkFailed` error. -/
def getTextLeafPlan (qec : QECModel) (node : TGNode) :
    Except PlanError SubtreePlan :=
  if node.wordPart.length > 0 then
    let score := "SCORE(" ++ node.cvar ++ ")"
    let vcmap :=
      (node.vars.foldl
        (fun (acc : List (String × Nat) × Nat) v =>
          if v ≠ node.cvar then (acc.1 ++ [(v, acc.2)], acc.2 + 1) else acc)
        ([(node.cvar, 0), (score, 1)], 2)).1
    let sz := qec.textSize node.wordPart (node.vars.length - 1)
    .ok
      { qet :=
          { opType := .textWithoutFilter, varCols := vcmap,
            contextVars := [node.cvar], sortedOn := 0,
            width := node.vars.length + 1, sizeEst := sz, costEst := sz },
        includedNodes := {node.id} }
  else .error .checkFailed

/-- Scan-seed helper: the `QueryExecutionTree` built for an index scan in
`seedWithScansAndText` (operation `SCAN`, the scan's fixed components, and
the variable columns set by `setVariableColumn`).  Scans deliver their
result sorted on column 0 (modelled from the spec's permutation-scan
contract). -/
def scanTree (qec : QECModel) (st : ScanType) (t : SparqlTriple)
    (subj pred obj : Option String) (vc : List (String × Nat)) : QET :=
  let sz := qec.scanSize st t
  { opType := .scan, scanType := some st, scanSubject := subj,
    scanPredicate := pred, scanObject := obj, varCols := vc,
    sortedOn := 0, width := vc.length, sizeEst := sz, costEst := sz }

/-- Body of the `seedWithScansAndText` loop for node `i`: a text-leaf plan
for text nodes, one scan for one-variable triples (direction chosen by
which component is the variable), two scans for two-variable triples, and
the `BAD_QUERY` / `NOT_YET_IMPLEMENTED` throws for every other shape. -/
def seedPlansForNode (qec : QECModel) (tg : TripleGraph) (i : Nat) :
    Except PlanError (List SubtreePlan) :=
  let node := tg.nodes.getD i default
  if node.cvar.length > 0 then
    (getTextLeafPlan qec node).map (fun p => [p])
  else if node.vars.length = 0 then
    .error (.badQuery "Triples should have at least one variable.")
  else if node.vars.length = 1 then
    if isVariable node.triple.s then
      .ok [{ qet := scanTree qec .POS_BOUND_O node.triple
               none (some node.triple.p) (some node.triple.o)
               [(node.triple.s, 0)],
             includedNodes := {i} }]
    else if isVariable node.triple.o then
      .ok [{ qet := scanTree qec .PSO_BOUND_S node.triple
               (some node.triple.s) (some node.triple.p) none
               [(node.triple.o, 0)],
             includedNodes := {i} }]
    else .error (.notYetImplemented "No predicate vars yet, please.")
  else if node.vars.length = 2 then
    if isVariable node.triple.p then
      .error (.notYetImplemented "No predicate vars yet, please.")
    else
      .ok
        [{ qet := scanTree qec .PSO_FREE_S node.triple
             none (some node.triple.p) none
             [(node.triple.s, 0), (node.triple.o, 1)],
           includedNodes := {i} },
         { qet := scanTree qec .POS_FREE_O node.triple
             none (some node.triple.p) none
             [(node.triple.o, 0), (node.triple.s, 1)],
           includedNodes := {i} }]
  else .error (.notYetImplemented "Triples should have at most two variables.")

/-- Loop of `QueryPlanner::seedWithScansAndText` over the node indices. -/
def seedsGo (qec : QECModel) (tg : TripleGraph) :
    Nat → Nat → List SubtreePlan → Except PlanError (List SubtreePlan)
  | 0, _, acc => .ok acc
  | fuel + 1, i, acc => do
      let s ← seedPlansForNode qec tg i
      seedsGo qec tg fuel (i + 1) (acc ++ s)

/-- `QueryPlanner::seedWithScansAndText`: seed plans for all graph nodes,
in node-id order. -/
def seedWithScansAndText (qec : QECModel) (tg : TripleGraph) :
    Except PlanError (List SubtreePlan) :=
  seedsGo qec tg tg.nodes.length 0 []

/-- `QueryPlanner::getJoinColumns`: the column pairs of all variables
shared by both plans' variable-column maps, in the iteration order of the
first map. -/
def getJoinColumns (a b : SubtreePlan) : List (Nat × Nat) :=
  a.qet.varCols.foldl
    (fun acc vc =>
      match b.qet.varCols.lookup vc.1 with
      | some c2 => acc ++ [(vc.2, c2)]
      | none => acc) []

/-- `QueryPlanner::connected`: the two plans' node sets must be disjoint
(checked by iterating the smaller set) and some node of `a` must have an
adjacency entry leading into `b`. -/
def connectedFn (a b : SubtreePlan) (tg : TripleGraph) : Bool :=
  let sa := a.includedNodes
  let sb := b.includedNodes
  let smaller := if sa.card < sb.card then sa else sb
  let bigger := if sa.card < sb.card then sb else sa
  if (finSort smaller).any (fun x => decide (x ∈ bigger)) then false
  else
    (finSort sa).any (fun nid =>
      (tg.adjLists.getD nid []).any
        (fun t => decide (t ∉ sa) && decide (t ∈ sb)))

/-- `QueryPlanner::getPruningKey`: the name of the variable sitting at the
ordered-on column, followed by the sorted included node ids. -/
def getPruningKey (plan : SubtreePlan) (orderedOnCol : Nat) : String :=
  let varName :=
    ((plan.qet.varCols.find? (fun vc => vc.2 = orderedOnCol)).map (·.1)).getD ""
  (finSort plan.includedNodes).foldl
    (fun s i => s ++ " " ++ toString i) varName

/-- Smallest element of a `Finset` with a default; stands in for
`*set.begin()` on the C++ `_idsOfIncludedNodes` (whose iteration order is
unspecified; in every state the planner reaches the set is a singleton, so
the choice is immaterial — see the invariant proofs below). -/
def setMinD (s : Finset Nat) (d : Nat) : Nat := (finSort s).headD d

/-- Sort wrapper built inside `merge` / `addOutsideText`: a fresh tree
carrying only the child's variable columns (`setVariableColumns`) and the
`SORT` operation; the result is sorted on the requested column.  Cost and
size are modelled from the spec (the plan only observes their values). -/
def sortWrapTree (sub : QET) (col : Nat) : QET :=
  { opType := .sort, varCols := sub.varCols, sortedOn := col,
    width := sub.width, sizeEst := sub.sizeEst,
    costEst := sub.costEst + sub.sizeEst }

/-- Modelled from the spec: the variable-column map of the external `Join`
operation — the left columns keep their positions, the right columns are
appended with the right join column removed. -/
def joinVariableColumns (l r : List (String × Nat)) (jc2 lw : Nat) :
    List (String × Nat) :=
  l ++ r.foldl
    (fun acc vc =>
      if vc.2 = jc2 then acc
      else acc ++ [(vc.1, if vc.2 < jc2 then lw + vc.2 else lw + vc.2 - 1)]) []

/-- Join tree built inside `merge`: the `JOIN` operation over the two
(possibly sort-wrapped) children, sorted on the left join column.  Cost
and size estimates are modelled from the spec. -/
def joinTree (left right : QET) (jc1 jc2 : Nat) : QET :=
  { opType := .join,
    varCols := joinVariableColumns left.varCols right.varCols jc2 left.width,
    sortedOn := jc1, width := left.width + right.width - 1,
    sizeEst := min left.sizeEst right.sizeEst,
    costEst := left.costEst + right.costEst + left.sizeEst + right.sizeEst }

/-- The text-with-filter candidate of `merge`: fuse the text-leaf side
with the other side as entity filter.  The column map keeps the context
variable and its score, renumbers the remaining text columns from 2 and
appends the filter side's columns; the included nodes are the other
plan's plus `*textPlan._idsOfIncludedNodes.begin()`; the filter set is the
default-constructed empty set (the C++ code never copies it here). -/
def mkTextWithFilterCand (pa pb : SubtreePlan) (jc : Nat × Nat) :
    String × SubtreePlan :=
  let isAText := pa.qet.opType = .textWithoutFilter
  let textPlan := if isAText then pa else pb
  let otherPlan := if isAText then pb else pa
  let cvar := textPlan.qet.contextVars.headD ""
  let score := "SCORE(" ++ cvar ++ ")"
  let keepColN := textPlan.qet.varCols.foldl
    (fun (acc : List (String × Nat) × Nat) vc =>
      if vc.1 = cvar ∨ vc.1 = score then (acc.1 ++ [vc], acc.2)
      else if (otherPlan.qet.varCols.lookup vc.1).isNone then
        (acc.1 ++ [(vc.1, acc.2)], acc.2 + 1)
      else acc)
    ([], 2)
  let vcmap := keepColN.1 ++
    otherPlan.qet.varCols.map (fun vc => (vc.1, keepColN.2 + vc.2))
  let tree : QET :=
    { opType := .textWithFilter, varCols := vcmap,
      contextVars := insertUnique otherPlan.qet.contextVars cvar,
      sortedOn := 0, width := keepColN.2 + otherPlan.qet.width,
      sizeEst := otherPlan.qet.sizeEst,
      costEst := otherPlan.qet.costEst + otherPlan.qet.sizeEst }
  let plan : SubtreePlan :=
    { qet := tree,
      includedNodes :=
        insert (setMinD textPlan.includedNodes 0) otherPlan.includedNodes,
      includedFilters := ∅ }
  (getPruningKey plan jc.1, plan)

/-- The sort-and-join candidate of `merge`: each side is sort-wrapped
unless it is already sorted on its join column, then joined. -/
def mkJoinCand (pa pb : SubtreePlan) (jc : Nat × Nat) :
    String × SubtreePlan :=
  let left := if pa.qet.sortedOn = jc.1 then pa.qet else sortWrapTree pa.qet jc.1
  let right := if pb.qet.sortedOn = jc.2 then pb.qet else sortWrapTree pb.qet jc.2
  let plan : SubtreePlan :=
    { qet := joinTree left right jc.1 jc.2,
      includedNodes := pa.includedNodes ∪ pb.includedNodes,
      includedFilters := pa.includedFilters }
  (getPruningKey plan jc.1, plan)

/-- Candidates emitted by `merge` for one pair `(pa, pb)`: nothing unless
the pair is connected; the `NOT_YET_IMPLEMENTED` throw unless exactly one
variable is shared; the text-with-filter plan when exactly one side is a
text operation without filter; and always the sort-and-join plan. -/
def pairCandidates (tg : TripleGraph) (pa pb : SubtreePlan) :
    Except PlanError (List (String × SubtreePlan)) :=
  if connectedFn pa pb tg then
    match getJoinColumns pa pb with
    | [jc] =>
        let textCands :=
          if (pa.qet.opType = .textWithoutFilter ∧
                pb.qet.opType ≠ .textWithoutFilter) ∨
             (pa.qet.opType ≠ .textWithoutFilter ∧
                pb.qet.opType = .textWithoutFilter) then
            [mkTextWithFilterCand pa pb jc]
          else []
        .ok (textCands ++ [mkJoinCand pa pb jc])
    | _ =>
        .error (.notYetImplemented
          "Joins should happen on one variable only, for now.")
  else .ok []

/-- Inner loop of `merge`: pair one plan of `a` with every plan of `b`. -/
def collectRow (tg : TripleGraph) (pa : SubtreePlan) :
    List SubtreePlan → Except PlanError (List (String × SubtreePlan))
  | [] => .ok []
  | pb :: rest => do
      let c ← pairCandidates tg pa pb
      let r ← collectRow tg pa rest
      .ok (c ++ r)

/-- Outer loop of `merge`: all pairs of `a × b`, in loop order, keyed by
their pruning key (the contents of the C++ `candidates` map). -/
def collectPairs (tg : TripleGraph) :
    List SubtreePlan → List SubtreePlan →
    Except PlanError (List (String × SubtreePlan))
  | [], _ => .ok []
  | pa :: rest, b => do
      let c ← collectRow tg pa b
      let r ← collectPairs tg rest b
      .ok (c ++ r)

/-- First element of a plan list whose cost estimate is minimal (the C++
scan with `minCost = SIZE_MAX` and a strict comparison keeps the first
plan attaining the minimum). -/
def pickMinPlan : List SubtreePlan → Option SubtreePlan
  | [] => none
  | p :: rest =>
      some (rest.foldl (fun best q => if planCost q < planCost best then q else best) p)

/-- Key list with later duplicates removed, tracking the keys already
seen (the distinct keys of the C++ `candidates` map, one per group). -/
def dedupKeysGo : List String → List String → List String
  | [], _ => []
  | k :: rest, seen =>
      if k ∈ seen then dedupKeysGo rest seen
      else k :: dedupKeysGo rest (k :: seen)

/-- Distinct keys of the candidate list, first occurrence first. -/
def dedupKeys (l : List String) : List String := dedupKeysGo l []

/-- Pruning step of `merge`: for each distinct key keep the first
minimum-cost plan of its group. -/
def prunePairs (cands : List (String × SubtreePlan)) :
    List (String × SubtreePlan) :=
  (dedupKeys (cands.map (·.1))).filterMap
    (fun k =>
      (pickMinPlan ((cands.filter (fun c => c.1 = k)).map (·.2))).map
        (fun p => (k, p)))

/-- `QueryPlanner::merge`: collect the candidates of all connected pairs,
then prune per key. -/
def merge (a b : List SubtreePlan) (tg : TripleGraph) :
    Except PlanError (List SubtreePlan) :=
  (collectPairs tg a b).map (fun cands => (prunePairs cands).map (·.2))

/-- `QueryExecutionTree::varCovered` (modelled from the spec: the tree's
variable-column map contains the variable). -/
def varCovered (qet : QET) (v : String) : Bool :=
  qet.varCols.any (fun vc => vc.1 = v)

/-- Wrap a plan in one filter (`applyFiltersIfPossible` body): a fresh
tree carrying the child's variable columns, the `FILTER` operation and
the child's context variables; the filter index is recorded as applied.
The filter preserves the child's result order (modelled from the spec). -/
def filterWrapPlan (pl : SubtreePlan) (i : Nat) : SubtreePlan :=
  { qet :=
      { opType := .filter, varCols := pl.qet.varCols,
        contextVars := pl.qet.contextVars, sortedOn := pl.qet.sortedOn,
        width := pl.qet.width, sizeEst := pl.qet.sizeEst,
        costEst := pl.qet.costEst + pl.qet.sizeEst },
    includedNodes := pl.includedNodes,
    includedFilters := insert i pl.includedFilters }

/-- One step of the filter loop: skip an already-applied filter, wrap
the plan when both filter variables are covered, keep it otherwise. -/
def applyOneFilter (pl : SubtreePlan) (fi : Nat × SparqlFilter) :
    SubtreePlan :=
  if fi.1 ∈ pl.includedFilters then pl
  else if varCovered pl.qet fi.2.lhs ∧ varCovered pl.qet fi.2.rhs then
    filterWrapPlan pl fi.1
  else pl

/-- Inner loop of `applyFiltersIfPossible` over one row entry: every
not-yet-applied filter whose two variables are covered wraps the plan
in place, so later filters see the already-wrapped plan. -/
def applyFiltersToPlan (filters : List SparqlFilter) (p : SubtreePlan) :
    SubtreePlan :=
  filters.enum.foldl applyOneFilter p

/-- `QueryPlanner::applyFiltersIfPossible`: apply to every plan of the
row, replacing each entry in place. -/
def applyFiltersIfPossible (row : List SubtreePlan)
    (filters : List SparqlFilter) : List SubtreePlan :=
  row.map (applyFiltersToPlan filters)

/-- Inner loop of `fillDpTab` building DP row `k`: for `i = 1 .. k/2`
merge row `i` with row `k-i` and re-apply the filters to the accumulated
row after each merge. -/
def buildRowGo (tg : TripleGraph) (filters : List SparqlFilter)
    (dp : List (List SubtreePlan)) (k : Nat) :
    Nat → Nat → List SubtreePlan → Except PlanError (List SubtreePlan)
  | 0, _, row => .ok row
  | fuel + 1, i, row => do
      let np ← merge (dp.getD (i - 1) []) (dp.getD (k - i - 1) []) tg
      buildRowGo tg filters dp k fuel (i + 1)
        (applyFiltersIfPossible (row ++ np) filters)

/-- Outer loop of `fillDpTab`: append DP rows for `k = 2 .. n`, where `k`
is always one more than the number of rows built so far. -/
def fillDpTabGo (qec : QECModel) (tg : TripleGraph)
    (filters : List SparqlFilter) :
    Nat → List (List SubtreePlan) →
    Except PlanError (List (List SubtreePlan))
  | 0, dp => .ok dp
  | fuel + 1, dp => do
      let k := dp.length + 1
      let row ← buildRowGo tg filters dp k (k / 2) 1 []
      fillDpTabGo qec tg filters fuel (dp ++ [row])

/-- `QueryPlanner::fillDpTab`: row 1 is the filtered seed set; rows
`2 .. n` are built by the merge loop. -/
def fillDpTab (qec : QECModel) (tg : TripleGraph)
    (filters : List SparqlFilter) :
    Except PlanError (List (List SubtreePlan)) := do
  let seeds ← seedWithScansAndText qec tg
  fillDpTabGo qec tg filters (tg.nodes.length - 1)
    [applyFiltersIfPossible seeds filters]

/-- Pruning key of a plan as a function of the plan alone: the key the
merge loop stores it under, recomputed at the column its result is
ordered on. -/
def planKey (p : SubtreePlan) : String := getPruningKey p p.qet.sortedOn

section PruneLemmas

lemma pickMinPlan_foldl_mem (rest : List SubtreePlan) :
    ∀ p : SubtreePlan,
      (rest.foldl (fun best q => if planCost q < planCost best then q else best) p)
        = p ∨
      (rest.foldl (fun best q => if planCost q < planCost best then q else best) p)
        ∈ rest := by
  induction rest with
  | nil => intro p; left; rfl
  | cons r rs ih =>
      intro p
      simp only [List.foldl_cons]
      rcases ih (if planCost r < planCost p then r else p) with h | h
      · rw [h]
        by_cases hc : planCost r < planCost p
        · right; simp [hc]
        · left; simp [hc]
      · right; exact List.mem_cons_of_mem _ h

lemma pickMinPlan_foldl_le (rest : List SubtreePlan) :
    ∀ p : SubtreePlan,
      planCost (rest.foldl
        (fun best q => if planCost q < planCost best then q else best) p)
        ≤ planCost p ∧
      ∀ q ∈ rest,
        planCost (rest.foldl
          (fun best q => if planCost q < planCost best then q else best) p)
          ≤ planCost q := by
  induction rest with
  | nil => intro p; exact ⟨le_refl _, by simp⟩
  | cons r rs ih =>
      intro p
      simp only [List.foldl_cons]
      rcases ih (if planCost r < planCost p then r else p) with ⟨h1, h2⟩
      by_cases hc : planCost r < planCost p
      · refine ⟨le_trans h1 (by simp [hc]; omega), ?_⟩
        intro q hq
        rcases List.mem_cons.mp hq with rfl | hq
        · exact le_trans h1 (by simp [hc])
        · exact h2 q hq
      · refine ⟨le_trans h1 (by simp [hc]), ?_⟩
        intro q hq
        rcases List.mem_cons.mp hq with rfl | hq
        · exact le_trans h1 (by simp [hc]; omega)
        · exact h2 q hq

lemma pickMinPlan_mem {l : List SubtreePlan} {p : SubtreePlan}
    (h : pickMinPlan l = some p) : p ∈ l := by
  cases l with
  | nil => simp [pickMinPlan] at h
  | cons a rest =>
      simp only [pickMinPlan, Option.some.injEq] at h
      rcases pickMinPlan_foldl_mem rest a with hm | hm
      · rw [← h, hm]; exact List.mem_cons_self _ _
      · rw [← h]; exact List.mem_cons_of_mem _ hm

lemma pickMinPlan_min {l : List SubtreePlan} {p : SubtreePlan}
    (h : pickMinPlan l = some p) : ∀ q ∈ l, planCost p ≤ planCost q := by
  cases l with
  | nil => simp [pickMinPlan] at h
  | cons a rest =>
      simp only [pickMinPlan, Option.some.injEq] at h
      intro q hq
      rcases List.mem_cons.mp hq with rfl | hq
      · rw [← h]; exact (pickMinPlan_foldl_le rest q).1
      · rw [← h]; exact (pickMinPlan_foldl_le rest a).2 q hq

lemma dedupKeysGo_nodup (l : List String) :
    ∀ seen, (dedupKeysGo l seen).Nodup ∧
      ∀ k ∈ dedupKeysGo l seen, k ∉ seen := by
  induction l with
  | nil => intro seen; simp [dedupKeysGo]
  | cons x xs ih =>
      intro seen
      by_cases hx : x ∈ seen
      · simpa [dedupKeysGo, hx] using ih seen
      · rcases ih (x :: seen) with ⟨hnd, hns⟩
        simp only [dedupKeysGo, hx, if_neg hx]
        constructor
        · refine List.nodup_cons.mpr ⟨?_, hnd⟩
          intro hmem
          exact (hns x hmem) (List.mem_cons_self _ _)
        · intro k hk
          rcases List.mem_cons.mp hk with rfl | hk
          · exact hx
          · intro hks
            exact (hns k hk) (List.mem_cons_of_mem _ hks)

lemma dedupKeys_nodup (l : List String) : (dedupKeys l).Nodup :=
  (dedupKeysGo_nodup l []).1

lemma filterMap_keyed_fst_sublist
    {β : Type} (g : String → Option β) (keys : List String) :
    ((keys.filterMap (fun k => (g k).map (fun p => (k, p)))).map Prod.fst).Sublist
      keys := by
  induction keys with
  | nil => simp
  | cons k ks ih =>
      cases hg : g k with
      | none => simpa [List.filterMap_cons, hg] using ih.cons k
      | some p =>
          simp only [List.filterMap_cons, hg, Option.map_some, List.map_cons]
          exact ih.cons₂ k

lemma prunePairs_keys_nodup (cands : List (String × SubtreePlan)) :
    ((prunePairs cands).map Prod.fst).Nodup := by
  unfold prunePairs
  exact List.Nodup.sublist (filterMap_keyed_fst_sublist _ _) (dedupKeys_nodup _)

lemma prunePairs_mem {cands : List (String × SubtreePlan)}
    {kp : String × SubtreePlan} (h : kp ∈ prunePairs cands) :
    kp.2 ∈ (cands.filter (fun c => c.1 = kp.1)).map (·.2) ∧
    ∀ q ∈ cands.filter (fun c => c.1 = kp.1), planCost kp.2 ≤ planCost q.2 := by
  unfold prunePairs at h
  rcases List.mem_filterMap.mp h with ⟨k, _, hk⟩
  cases hpick : pickMinPlan ((cands.filter (fun c => c.1 = k)).map (·.2)) with
  | none => rw [hpick] at hk; simp at hk
  | some p =>
      rw [hpick] at hk
      injection hk with hk2
      cases hk2
      refine ⟨pickMinPlan_mem hpick, ?_⟩
      intro q hq
      exact pickMinPlan_min hpick _ (List.mem_map_of_mem (·.2) hq)

end PruneLemmas

/-! Concrete planner instances used by counterexamples and witnesses. -/

/-- A trivial execution-context model: every leaf estimate is 1. -/
def qec0 : QECModel := {}

/-- An execution-context model with distinct scan sizes per predicate, so
that distinct join orders get distinct cost estimates. -/
def qec1 : QECModel :=
  { scanSize := fun _ t =>
      if t.p = "<p0>" then 2 else if t.p = "<p1>" then 3
      else if t.p = "<p2>" then 5 else 7 }

/-- A star query: four one-variable triples all sharing `?x`. -/
def starQuery : ParsedQuery :=
  { whereClauseTriples :=
      [⟨"?x", "<p0>", "<o0>"⟩, ⟨"?x", "<p1>", "<o1>"⟩,
       ⟨"?x", "<p2>", "<o2>"⟩, ⟨"?x", "<p3>", "<o3>"⟩] }

/-- The triple graph of the star query (a complete graph on 4 nodes). -/
def starTg : TripleGraph := createTripleGraph starQuery

/-- The DP table the planner computes for the star query. -/
def starDp : List (List SubtreePlan) :=
  (fillDpTab qec1 starTg []).toOption.getD []

/-- Claim C1, counterexample.  The claim says that within any single
DP-table row no two surviving plans share a pruning key.  For the star
query (four triples sharing `?x`), DP row 4 is assembled from two separate
`merge` invocations (`i = 1` merging rows 1×3 and `i = 2` merging rows
2×2); each invocation prunes only its own candidate map, so the row
contains two distinct plans that both carry the pruning key
`"?x 0 1 2 3"`. -/
theorem claimC1_counterexample :
    fillDpTab qec1 starTg [] = .ok starDp ∧
    (starDp.getD 3 []).length = 2 ∧
    planKey ((starDp.getD 3 []).getD 0 default) = "?x 0 1 2 3" ∧
    planKey ((starDp.getD 3 []).getD 1 default) = "?x 0 1 2 3" ∧
    (starDp.getD 3 []).getD 0 default ≠ (starDp.getD 3 []).getD 1 default ∧
    ¬ ((starDp.getD 3 []).map planKey).Nodup :=
  ⟨rfl, rfl, rfl, rfl, by decide, by decide⟩

/-- Claim C1, amended: pruning by key is per `merge` invocation, not per
DP row.  The plan list returned by one `merge` call is the pruned
candidate map: its keys are pairwise distinct, and for each key the kept
plan is a candidate of that key's group with minimal cost estimate.
(A DP row of `fillDpTab` concatenates the outputs of several `merge`
calls for `k ≥ 4` and may therefore repeat a key across them.) -/
theorem claimC1_theorem (tg : TripleGraph) (a b : List SubtreePlan)
    (cands : List (String × SubtreePlan))
    (h : collectPairs tg a b = .ok cands) :
    merge a b tg = .ok ((prunePairs cands).map (·.2)) ∧
    ((prunePairs cands).map Prod.fst).Nodup ∧
    ∀ kp ∈ prunePairs cands,
      kp.2 ∈ (cands.filter (fun c => c.1 = kp.1)).map (·.2) ∧
      ∀ q ∈ cands.filter (fun c => c.1 = kp.1),
        planCost kp.2 ≤ planCost q.2 := by
  refine ⟨?_, prunePairs_keys_nodup cands, fun kp hkp => prunePairs_mem hkp⟩
  simp only [merge, h, Except.map]

/-- A two-triple query sharing `?x`, used as the witness instance. -/
def pairQuery : ParsedQuery :=
  { whereClauseTriples := [⟨"?x", "<p>", "<o>"⟩, ⟨"?x", "<q>", "<o2>"⟩] }

/-- Triple graph of the two-triple query. -/
def pairTg : TripleGraph := createTripleGraph pairQuery

/-- Seed row of the two-triple query. -/
def pairRow : List SubtreePlan :=
  (seedWithScansAndText qec0 pairTg).toOption.getD []

/-- Candidate list of merging the seed row with itself. -/
def pairCandList : List (String × SubtreePlan) :=
  (collectPairs pairTg pairRow pairRow).toOption.getD []

/-- Witness for the amended claim C1 at a concrete two-triple query. -/
theorem claimC1_witness :
    collectPairs pairTg pairRow pairRow = .ok pairCandList ∧
    merge pairRow pairRow pairTg = .ok ((prunePairs pairCandList).map (·.2)) ∧
    ((prunePairs pairCandList).map Prod.fst).Nodup :=
  ⟨rfl, (claimC1_theorem pairTg pairRow pairRow pairCandList rfl).1,
   (claimC1_theorem pairTg pairRow pairRow pairCandList rfl).2.1⟩

/-! Connectivity of induced subgraphs of the triple graph, for the DP-row
invariant (claim C2).  The triple graph is undirected: an edge between
`u` and `v` is an adjacency entry in either direction. -/

/-- One undirected edge step between two members of `s`. -/
def stepIn (tg : TripleGraph) (s : Finset Nat) (u v : Nat) : Prop :=
  u ∈ s ∧ v ∈ s ∧
    (v ∈ tg.adjLists.getD u [] ∨ u ∈ tg.adjLists.getD v [])

/-- The subgraph of the triple graph induced by `s` is connected: every
two members of `s` are joined by a path inside `s`. -/
def connIn (tg : TripleGraph) (s : Finset Nat) : Prop :=
  ∀ u ∈ s, ∀ v ∈ s, Relation.ReflTransGen (stepIn tg s) u v

lemma stepIn_symm {tg : TripleGraph} {s : Finset Nat} {u v : Nat}
    (h : stepIn tg s u v) : stepIn tg s v u :=
  ⟨h.2.1, h.1, h.2.2.symm⟩

lemma reachIn_symm {tg : TripleGraph} {s : Finset Nat} {u v : Nat}
    (h : Relation.ReflTransGen (stepIn tg s) u v) :
    Relation.ReflTransGen (stepIn tg s) v u := by
  induction h with
  | refl => exact .refl
  | tail _ hstep ih => exact Relation.ReflTransGen.head (stepIn_symm hstep) ih

lemma reachIn_mono {tg : TripleGraph} {s t : Finset Nat} (hsub : s ⊆ t)
    {u v : Nat} (h : Relation.ReflTransGen (stepIn tg s) u v) :
    Relation.ReflTransGen (stepIn tg t) u v :=
  Relation.ReflTransGen.mono
    (fun _ _ hs => ⟨hsub hs.1, hsub hs.2.1, hs.2.2⟩) h

lemma connIn_singleton (tg : TripleGraph) (x : Nat) :
    connIn tg {x} := by
  intro u hu v hv
  rw [Finset.mem_singleton] at hu hv
  rw [hu, hv]

lemma connIn_union {tg : TripleGraph} {sa sb : Finset Nat}
    (ha : connIn tg sa) (hb : connIn tg sb) {x t : Nat}
    (hx : x ∈ sa) (ht : t ∈ sb) (hadj : t ∈ tg.adjLists.getD x []) :
    connIn tg (sa ∪ sb) := by
  have hstep : Relation.ReflTransGen (stepIn tg (sa ∪ sb)) x t :=
    Relation.ReflTransGen.single
      ⟨Finset.mem_union_left _ hx, Finset.mem_union_right _ ht, Or.inl hadj⟩
  have cross : ∀ u ∈ sa, ∀ v ∈ sb,
      Relation.ReflTransGen (stepIn tg (sa ∪ sb)) u v := by
    intro u hu v hv
    exact ((reachIn_mono Finset.subset_union_left (ha u hu x hx)).trans
      hstep).trans (reachIn_mono Finset.subset_union_right (hb t ht v hv))
  intro u hu v hv
  rcases Finset.mem_union.mp hu with hu' | hu' <;>
    rcases Finset.mem_union.mp hv with hv' | hv'
  · exact reachIn_mono Finset.subset_union_left (ha u hu' v hv')
  · exact cross u hu' v hv'
  · exact reachIn_symm (cross v hv' u hu')
  · exact reachIn_mono Finset.subset_union_right (hb u hu' v hv')

lemma mem_msortNat (s : Multiset Nat) (a : Nat) :
    a ∈ msortNat s ↔ a ∈ s := by
  induction s using Quotient.inductionOn with
  | h l =>
      simp only [msortNat]
      exact Iff.trans (List.perm_insertionSort (· ≤ ·) l).mem_iff Iff.rfl

lemma mem_finSort {s : Finset Nat} {a : Nat} : a ∈ finSort s ↔ a ∈ s :=
  mem_msortNat s.val a

/-- What `QueryPlanner::connected` returning true means: the node sets
are disjoint and some adjacency entry leads from a node of `a` out of
`a` into `b`. -/
lemma connectedFn_true {a b : SubtreePlan} {tg : TripleGraph}
    (h : connectedFn a b tg = true) :
    Disjoint a.includedNodes b.includedNodes ∧
    ∃ x ∈ a.includedNodes, ∃ t ∈ tg.adjLists.getD x [],
      t ∉ a.includedNodes ∧ t ∈ b.includedNodes := by
  unfold connectedFn at h
  dsimp only at h
  by_cases hcard : a.includedNodes.card < b.includedNodes.card
  · simp only [if_pos hcard] at h
    split at h
    · simp at h
    · rename_i hover
      refine ⟨?_, ?_⟩
      · rw [Finset.disjoint_left]
        intro n hna hnb
        apply hover
        rw [List.any_eq_true]
        exact ⟨n, mem_finSort.mpr hna, by simpa using hnb⟩
      · rw [List.any_eq_true] at h
        rcases h with ⟨nid, hnid, hadj⟩
        rw [List.any_eq_true] at hadj
        rcases hadj with ⟨t, htadj, htcond⟩
        rw [Bool.and_eq_true, decide_eq_true_eq, decide_eq_true_eq] at htcond
        exact ⟨nid, mem_finSort.mp hnid, t, htadj, htcond.1, htcond.2⟩
  · simp only [if_neg hcard] at h
    split at h
    · simp at h
    · rename_i hover
      refine ⟨?_, ?_⟩
      · rw [Finset.disjoint_right]
        intro n hnb hna
        apply hover
        rw [List.any_eq_true]
        exact ⟨n, mem_finSort.mpr hnb, by simpa using hna⟩
      · rw [List.any_eq_true] at h
        rcases h with ⟨nid, hnid, hadj⟩
        rw [List.any_eq_true] at hadj
        rcases hadj with ⟨t, htadj, htcond⟩
        rw [Bool.and_eq_true, decide_eq_true_eq, decide_eq_true_eq] at htcond
        exact ⟨nid, mem_finSort.mp hnid, t, htadj, htcond.1, htcond.2⟩

/-- Node set and kind of the sort-and-join candidate. -/
lemma mkJoinCand_plan (pa pb : SubtreePlan) (jc : Nat × Nat) :
    ((mkJoinCand pa pb jc).2).includedNodes =
      pa.includedNodes ∪ pb.includedNodes ∧
    ((mkJoinCand pa pb jc).2).qet.opType = .join := by
  constructor <;> rfl

/-- Node set and kind of the text-with-filter candidate. -/
lemma mkTextWithFilterCand_plan (pa pb : SubtreePlan) (jc : Nat × Nat) :
    ((mkTextWithFilterCand pa pb jc).2).includedNodes =
      insert
        (setMinD
          (if pa.qet.opType = .textWithoutFilter then pa else pb).includedNodes
          0)
        ((if pa.qet.opType = .textWithoutFilter then pb else pa).includedNodes) ∧
    ((mkTextWithFilterCand pa pb jc).2).qet.opType = .textWithFilter := by
  constructor <;> rfl

/-- The smallest element of a singleton set. -/
lemma setMinD_singleton (x d : Nat) : setMinD {x} d = x := by
  simp [setMinD, finSort, msortNat, Finset.singleton_val,
    List.insertionSort]
  rfl

/-- Shape of every candidate one pair contributes: the pair is connected,
shares exactly one variable, and the candidate is the sort-and-join plan
or (when exactly one side is a filterless text operation) the
text-with-filter plan. -/
lemma pairCandidates_mem {tg : TripleGraph} {pa pb : SubtreePlan}
    {cs : List (String × SubtreePlan)}
    (h : pairCandidates tg pa pb = .ok cs)
    {kp : String × SubtreePlan} (hkp : kp ∈ cs) :
    connectedFn pa pb tg = true ∧
    ∃ jc, getJoinColumns pa pb = [jc] ∧
      (kp = mkJoinCand pa pb jc ∨
        (kp = mkTextWithFilterCand pa pb jc ∧
          ((pa.qet.opType = .textWithoutFilter ∧
              pb.qet.opType ≠ .textWithoutFilter) ∨
           (pa.qet.opType ≠ .textWithoutFilter ∧
              pb.qet.opType = .textWithoutFilter)))) := by
  unfold pairCandidates at h
  split at h
  · rename_i hconn
    refine ⟨hconn, ?_⟩
    split at h
    · rename_i jc hjc
      refine ⟨jc, hjc, ?_⟩
      injection h with h
      subst h
      split at hkp
      · rename_i htext
        rcases List.mem_append.mp hkp with hl | hr
        · right
          exact ⟨List.mem_singleton.mp hl, htext⟩
        · left
          exact List.mem_singleton.mp hr
      · left
        exact List.mem_singleton.mp (by simpa using hkp)
    · exact absurd h (by simp)
  · injection h with h
    subst h
    exact absurd hkp (by simp)

/-- Every candidate collected for one left plan comes from one pair. -/
lemma collectRow_mem {tg : TripleGraph} {pa : SubtreePlan} :
    ∀ {b : List SubtreePlan} {cs : List (String × SubtreePlan)},
      collectRow tg pa b = .ok cs →
      ∀ {kp : String × SubtreePlan}, kp ∈ cs →
      ∃ pb ∈ b, ∃ cs', pairCandidates tg pa pb = .ok cs' ∧ kp ∈ cs' := by
  intro b
  induction b with
  | nil =>
      intro cs h kp hkp
      rw [collectRow] at h
      injection h with h
      subst h
      exact absurd hkp (by simp)
  | cons pb rest ih =>
      intro cs h kp hkp
      rw [collectRow] at h
      cases hc : pairCandidates tg pa pb with
      | error e => rw [hc] at h; exact Except.noConfusion h
      | ok c =>
          rw [hc] at h
          cases hr : collectRow tg pa rest with
          | error e => rw [hr] at h; exact Except.noConfusion h
          | ok r =>
              rw [hr] at h
              injection h with h
              subst h
              rcases List.mem_append.mp hkp with hl | hrr
              · exact ⟨pb, List.mem_cons_self _ _, c, hc, hl⟩
              · rcases ih hr hrr with ⟨pb', hpb', cs', hcs', hkp'⟩
                exact ⟨pb', List.mem_cons_of_mem _ hpb', cs', hcs', hkp'⟩

/-- Every candidate of the merge loop comes from one pair of `a × b`. -/
lemma collectPairs_mem {tg : TripleGraph} :
    ∀ {a b : List SubtreePlan} {cs : List (String × SubtreePlan)},
      collectPairs tg a b = .ok cs →
      ∀ {kp : String × SubtreePlan}, kp ∈ cs →
      ∃ pa ∈ a, ∃ pb ∈ b, ∃ cs',
        pairCandidates tg pa pb = .ok cs' ∧ kp ∈ cs' := by
  intro a
  induction a with
  | nil =>
      intro b cs h kp hkp
      rw [collectPairs] at h
      injection h with h
      subst h
      exact absurd hkp (by simp)
  | cons pa rest ih =>
      intro b cs h kp hkp
      rw [collectPairs] at h
      cases hc : collectRow tg pa b with
      | error e => rw [hc] at h; exact Except.noConfusion h
      | ok c =>
          rw [hc] at h
          cases hr : collectPairs tg rest b with
          | error e => rw [hr] at h; exact Except.noConfusion h
          | ok r =>
              rw [hr] at h
              injection h with h
              subst h
              rcases List.mem_append.mp hkp with hl | hrr
              · rcases collectRow_mem hc hl with ⟨pb, hpb, cs', hcs', hkp'⟩
                exact ⟨pa, List.mem_cons_self _ _, pb, hpb, cs', hcs', hkp'⟩
              · rcases ih hr hrr with ⟨pa', hpa', pb, hpb, cs', hcs', hkp'⟩
                exact ⟨pa', List.mem_cons_of_mem _ hpa', pb, hpb, cs', hcs',
                  hkp'⟩

/-- Every plan surviving `merge` is a join or text-with-filter plan built
from one connected pair of the two rows. -/
lemma merge_mem {a b : List SubtreePlan} {tg : TripleGraph}
    {out : List SubtreePlan} (h : merge a b tg = .ok out)
    {p : SubtreePlan} (hp : p ∈ out) :
    ∃ pa ∈ a, ∃ pb ∈ b, connectedFn pa pb tg = true ∧
      ∃ jc,
        (p = (mkJoinCand pa pb jc).2 ∨
          (p = (mkTextWithFilterCand pa pb jc).2 ∧
            ((pa.qet.opType = .textWithoutFilter ∧
                pb.qet.opType ≠ .textWithoutFilter) ∨
             (pa.qet.opType ≠ .textWithoutFilter ∧
                pb.qet.opType = .textWithoutFilter)))) := by
  unfold merge at h
  cases hc : collectPairs tg a b with
  | error e => rw [hc] at h; exact Except.noConfusion h
  | ok cands =>
      rw [hc] at h
      injection h with h
      subst h
      rcases List.mem_map.mp hp with ⟨kp, hkp, hkp2⟩
      have hkpc : kp ∈ cands := by
        rcases prunePairs_mem hkp with ⟨hmem, _⟩
        rcases List.mem_map.mp hmem with ⟨c, hcmem, hceq⟩
        have hcfst : c.1 = kp.1 := by
          simpa using (List.mem_filter.mp hcmem).2
        have : c = kp := Prod.ext hcfst hceq
        rw [← this]
        exact (List.mem_filter.mp hcmem).1
      rcases collectPairs_mem hc hkpc with ⟨pa, hpa, pb, hpb, cs', hcs', hkp'⟩
      rcases pairCandidates_mem hcs' hkp' with ⟨hconn, jc, _, hshape⟩
      refine ⟨pa, hpa, pb, hpb, hconn, jc, ?_⟩
      rcases hshape with hj | ⟨ht, hcond⟩
      · left; rw [← hkp2, hj]
      · right; exact ⟨by rw [← hkp2, ht], hcond⟩

/-! The DP-row invariant (claim C2): every plan of row `m` covers exactly
`m` nodes whose induced subgraph is connected, and every plan whose root
is a filterless text operation is a single text leaf. -/

/-- Invariant of one DP row holding plans of size `m`. -/
def RowInv (tg : TripleGraph) (m : Nat) (row : List SubtreePlan) : Prop :=
  ∀ p ∈ row, p.includedNodes.card = m ∧ connIn tg p.includedNodes ∧
    (p.qet.opType = .textWithoutFilter → ∃ x, p.includedNodes = ({x} : Finset Nat))

lemma applyOneFilter_nodes (pl : SubtreePlan) (fi : Nat × SparqlFilter) :
    (applyOneFilter pl fi).includedNodes = pl.includedNodes := by
  unfold applyOneFilter filterWrapPlan
  split
  · rfl
  · split <;> rfl

lemma applyOneFilter_twf (pl : SubtreePlan) (fi : Nat × SparqlFilter)
    (h : (applyOneFilter pl fi).qet.opType = .textWithoutFilter) :
    pl.qet.opType = .textWithoutFilter := by
  unfold applyOneFilter filterWrapPlan at h
  split at h
  · exact h
  · split at h
    · exact absurd h (by simp)
    · exact h

lemma applyFiltersToPlan_nodes (filters : List SparqlFilter)
    (p : SubtreePlan) :
    (applyFiltersToPlan filters p).includedNodes = p.includedNodes := by
  unfold applyFiltersToPlan
  generalize filters.enum = l
  induction l generalizing p with
  | nil => rfl
  | cons fi rest ih =>
      rw [List.foldl_cons, ih, applyOneFilter_nodes]

lemma applyFiltersToPlan_twf (filters : List SparqlFilter)
    (p : SubtreePlan)
    (h : (applyFiltersToPlan filters p).qet.opType = .textWithoutFilter) :
    p.qet.opType = .textWithoutFilter := by
  unfold applyFiltersToPlan at h
  revert h
  generalize filters.enum = l
  induction l generalizing p with
  | nil => exact fun h => h
  | cons fi rest ih =>
      intro h
      rw [List.foldl_cons] at h
      exact applyOneFilter_twf _ _ (ih _ h)

lemma rowInv_applyFilters {tg : TripleGraph} {m : Nat}
    {row : List SubtreePlan} (h : RowInv tg m row)
    (filters : List SparqlFilter) :
    RowInv tg m (applyFiltersIfPossible row filters) := by
  intro p hp
  rcases List.mem_map.mp hp with ⟨q, hq, hqp⟩
  rcases h q hq with ⟨hc, hconn, htwf⟩
  subst hqp
  rw [applyFiltersToPlan_nodes]
  exact ⟨hc, hconn, fun ht => htwf (applyFiltersToPlan_twf _ _ ht)⟩

lemma rowInv_append {tg : TripleGraph} {m : Nat}
    {r1 r2 : List SubtreePlan} (h1 : RowInv tg m r1) (h2 : RowInv tg m r2) :
    RowInv tg m (r1 ++ r2) := by
  intro p hp
  rcases List.mem_append.mp hp with hl | hr
  · exact h1 p hl
  · exact h2 p hr

lemma rowInv_nil (tg : TripleGraph) (m : Nat) : RowInv tg m [] := by
  intro p hp
  exact absurd hp (by simp)

/-- Every seed plan covers exactly one node. -/
lemma seedPlansForNode_singleton {qec : QECModel} {tg : TripleGraph}
    {i : Nat} {plans : List SubtreePlan}
    (h : seedPlansForNode qec tg i = .ok plans) :
    ∀ p ∈ plans, ∃ x, p.includedNodes = ({x} : Finset Nat) := by
  unfold seedPlansForNode at h
  dsimp only at h
  split at h
  · unfold getTextLeafPlan at h
    split at h
    · simp only [Except.map] at h
      injection h with h
      subst h
      intro p hp
      rw [List.mem_singleton] at hp
      subst hp
      exact ⟨_, rfl⟩
    · exact absurd h (by simp [Except.map])
  · split at h
    · exact Except.noConfusion h
    · split at h
      · split at h
        · injection h with h
          subst h
          intro p hp
          rw [List.mem_singleton] at hp
          subst hp
          exact ⟨i, rfl⟩
        · split at h
          · injection h with h
            subst h
            intro p hp
            rw [List.mem_singleton] at hp
            subst hp
            exact ⟨i, rfl⟩
          · exact Except.noConfusion h
      · split at h
        · split at h
          · exact Except.noConfusion h
          · injection h with h
            subst h
            intro p hp
            rcases List.mem_cons.mp hp with rfl | hp
            · exact ⟨i, rfl⟩
            · rw [List.mem_singleton] at hp
              subst hp
              exact ⟨i, rfl⟩
        · exact Except.noConfusion h

lemma singleton_rowInv {tg : TripleGraph} {row : List SubtreePlan}
    (h : ∀ p ∈ row, ∃ x, p.includedNodes = ({x} : Finset Nat)) :
    RowInv tg 1 row := by
  intro p hp
  rcases h p hp with ⟨x, hx⟩
  rw [hx]
  exact ⟨Finset.card_singleton x, connIn_singleton tg x, fun _ => ⟨x, rfl⟩⟩

lemma seedsGo_singleton {qec : QECModel} {tg : TripleGraph} :
    ∀ {fuel i : Nat} {acc out : List SubtreePlan},
      (∀ p ∈ acc, ∃ x, p.includedNodes = ({x} : Finset Nat)) →
      seedsGo qec tg fuel i acc = .ok out →
      ∀ p ∈ out, ∃ x, p.includedNodes = ({x} : Finset Nat) := by
  intro fuel
  induction fuel with
  | zero =>
      intro i acc out hacc h
      rw [seedsGo] at h
      injection h with h
      subst h
      exact hacc
  | succ f ih =>
      intro i acc out hacc h
      rw [seedsGo] at h
      cases hs : seedPlansForNode qec tg i with
      | error e => rw [hs] at h; exact Except.noConfusion h
      | ok s =>
          rw [hs] at h
          refine ih ?_ h
          intro p hp
          rcases List.mem_append.mp hp with hl | hr
          · exact hacc p hl
          · exact seedPlansForNode_singleton hs p hr

/-- The merge of two rows satisfying the invariant at sizes `i` and `j`
satisfies it at size `i + j`. -/
lemma merge_rowInv {a b : List SubtreePlan} {tg : TripleGraph}
    {out : List SubtreePlan} (h : merge a b tg = .ok out)
    {i j : Nat} (ha : RowInv tg i a) (hb : RowInv tg j b) :
    RowInv tg (i + j) out := by
  intro p hp
  rcases merge_mem h hp with ⟨pa, hpa, pb, hpb, hconn, jc, hshape⟩
  rcases ha pa hpa with ⟨hca, hconna, htwfa⟩
  rcases hb pb hpb with ⟨hcb, hconnb, htwfb⟩
  rcases connectedFn_true hconn with ⟨hdisj, x, hx, t, htadj, _, htb⟩
  have hnodes : p.includedNodes = pa.includedNodes ∪ pb.includedNodes := by
    rcases hshape with hj | ⟨ht, hcond⟩
    · rw [hj]
      exact (mkJoinCand_plan pa pb jc).1
    · rw [ht, (mkTextWithFilterCand_plan pa pb jc).1]
      rcases hcond with ⟨hpat, _⟩ | ⟨hpat, hpbt⟩
      · rcases htwfa hpat with ⟨y, hy⟩
        rw [if_pos hpat, if_pos hpat, hy, setMinD_singleton,
          Finset.insert_eq, ← hy]
      · rcases htwfb hpbt with ⟨y, hy⟩
        rw [if_neg hpat, if_neg hpat, hy, setMinD_singleton,
          Finset.insert_eq, ← hy]
        exact Finset.union_comm _ _
  have hops : p.qet.opType = .join ∨ p.qet.opType = .textWithFilter := by
    rcases hshape with hj | ⟨ht, _⟩
    · left; rw [hj]; exact (mkJoinCand_plan pa pb jc).2
    · right; rw [ht]; exact (mkTextWithFilterCand_plan pa pb jc).2
  rw [hnodes]
  refine ⟨?_, connIn_union hconna hconnb hx htb htadj, ?_⟩
  · rw [Finset.card_union_of_disjoint hdisj, hca, hcb]
  · intro htwf
    rcases hops with ho | ho <;> rw [ho] at htwf <;> simp at htwf

/-- Helper: indexing into a list extended by one element. -/
lemma getD_concat {α : Type} (dp : List α) (row : α) (d : α) (m : Nat) :
    (dp ++ [row]).getD m d =
      if m < dp.length then dp.getD m d
      else if m = dp.length then row else d := by
  induction dp generalizing m with
  | nil =>
      cases m with
      | zero => simp
      | succ m => simp [List.getD]
  | cons a rest ih =>
      cases m with
      | zero => simp
      | succ m =>
          simp only [List.cons_append, List.getD_cons_succ, ih,
            List.length_cons, Nat.add_lt_add_iff_right,
            Nat.add_right_cancel_iff]

lemma buildRowGo_rowInv {tg : TripleGraph} {filters : List SparqlFilter}
    {dp : List (List SubtreePlan)} {k : Nat}
    (hdp : ∀ m, RowInv tg (m + 1) (dp.getD m [])) (hk : 2 ≤ k) :
    ∀ {fuel i : Nat} {row out : List SubtreePlan},
      1 ≤ i → i + fuel = k / 2 + 1 → RowInv tg k row →
      buildRowGo tg filters dp k fuel i row = .ok out →
      RowInv tg k out := by
  intro fuel
  induction fuel with
  | zero =>
      intro i row out _ _ hrow h
      rw [buildRowGo] at h
      injection h with h
      subst h
      exact hrow
  | succ f ih =>
      intro i row out hi hif hrow h
      rw [buildRowGo] at h
      cases hm : merge (dp.getD (i - 1) []) (dp.getD (k - i - 1) []) tg with
      | error e => rw [hm] at h; exact Except.noConfusion h
      | ok np =>
          rw [hm] at h
          have hileqk : i ≤ k / 2 := by omega
          have h1 : RowInv tg i (dp.getD (i - 1) []) := by
            have := hdp (i - 1)
            rwa [show i - 1 + 1 = i by omega] at this
          have h2 : RowInv tg (k - i) (dp.getD (k - i - 1) []) := by
            have := hdp (k - i - 1)
            rwa [show k - i - 1 + 1 = k - i by omega] at this
          have hnp : RowInv tg k np := by
            have := merge_rowInv hm h1 h2
            rwa [show i + (k - i) = k by omega] at this
          exact @ih (i + 1) _ _ (by omega) (by omega)
            (rowInv_applyFilters (rowInv_append hrow hnp) filters) h

lemma fillDpTabGo_rowInv {qec : QECModel} {tg : TripleGraph}
    {filters : List SparqlFilter} :
    ∀ {fuel : Nat} {dp out : List (List SubtreePlan)},
      (∀ m, RowInv tg (m + 1) (dp.getD m [])) → 1 ≤ dp.length →
      fillDpTabGo qec tg filters fuel dp = .ok out →
      ∀ m, RowInv tg (m + 1) (out.getD m []) := by
  intro fuel
  induction fuel with
  | zero =>
      intro dp out hdp _ h
      rw [fillDpTabGo] at h
      injection h with h
      subst h
      exact hdp
  | succ f ih =>
      intro dp out hdp hlen h
      rw [fillDpTabGo] at h
      cases hr : buildRowGo tg filters dp (dp.length + 1)
          ((dp.length + 1) / 2) 1 [] with
      | error e => rw [hr] at h; exact Except.noConfusion h
      | ok row =>
          rw [hr] at h
          have hrow : RowInv tg (dp.length + 1) row :=
            buildRowGo_rowInv hdp (by omega) (le_refl 1)
              (Nat.add_comm 1 _) (rowInv_nil tg _) hr
          refine ih ?_ (by simp) h
          intro m
          rw [getD_concat]
          split
          · exact hdp m
          · split
            · rename_i hlt heq
              rw [heq]
              exact hrow
            · exact rowInv_nil tg _

/-- Claim C2: for every DP table the planner computes, every plan of row
`k` (1-based: list index `k-1`) covers exactly `k` triple-graph nodes and
the subgraph induced by its node set is connected; moreover every pair
the merge step accepts consists of plans with disjoint node sets such
that some adjacency entry of one side leads into the other side. -/
theorem claimC2_theorem (qec : QECModel) (tg : TripleGraph)
    (filters : List SparqlFilter) (dp : List (List SubtreePlan))
    (h : fillDpTab qec tg filters = .ok dp) :
    (∀ k, ∀ p ∈ dp.getD k [], p.includedNodes.card = k + 1 ∧
      connIn tg p.includedNodes) ∧
    (∀ a b : SubtreePlan, connectedFn a b tg = true →
      Disjoint a.includedNodes b.includedNodes ∧
      ∃ x ∈ a.includedNodes, ∃ t ∈ tg.adjLists.getD x [],
        t ∉ a.includedNodes ∧ t ∈ b.includedNodes) := by
  refine ⟨?_, fun a b hc => connectedFn_true hc⟩
  unfold fillDpTab at h
  cases hs : seedWithScansAndText qec tg with
  | error e => rw [hs] at h; exact Except.noConfusion h
  | ok seeds =>
      rw [hs] at h
      have hrow1 : RowInv tg 1 (applyFiltersIfPossible seeds filters) :=
        rowInv_applyFilters
          (singleton_rowInv (seedsGo_singleton (by simp) hs)) filters
      have hdp0 : ∀ m,
          RowInv tg (m + 1)
            (([applyFiltersIfPossible seeds filters]).getD m []) := by
        intro m
        cases m with
        | zero => exact hrow1
        | succ m => exact rowInv_nil tg _
      have := fillDpTabGo_rowInv hdp0 (by simp) h
      intro k p hp
      exact ⟨(this k p hp).1, (this k p hp).2.1⟩

/-- Witness for claim C2: the invariant evaluated on the star query's
concrete DP table (row 2 plans all cover two nodes, connectedly). -/
theorem claimC2_witness :
    fillDpTab qec1 starTg [] = .ok starDp ∧
    ∀ p ∈ starDp.getD 1 [], p.includedNodes.card = 2 ∧
      connIn starTg p.includedNodes :=
  ⟨rfl, fun p hp =>
    ((claimC2_theorem qec1 starTg [] starDp rfl).1 1 p hp)⟩

/-- Claim C7: seed plans of a non-text node.  With exactly one variable,
standing in subject or object position, seeding yields exactly one scan
plan with that variable at output column 0 — fixing predicate and object
(a `POS` scan bound on the object) when the subject is the variable, and
fixing subject and predicate (a `PSO` scan bound on the subject) when the
object is the variable.  With exactly two variables and a concrete
predicate it yields exactly two seed plans, subject-first (`PSO_FREE_S`)
then object-first (`POS_FREE_O`). -/
theorem claimC7_theorem (qec : QECModel) (tg : TripleGraph) (i : Nat)
    (hcv : (tg.nodes.getD i default).cvar = "") :
    (((tg.nodes.getD i default).vars.length = 1 ∧
        isVariable (tg.nodes.getD i default).triple.s = true) →
      ∃ p, seedPlansForNode qec tg i = .ok [p] ∧
        p.qet.opType = .scan ∧
        p.qet.scanType = some .POS_BOUND_O ∧
        p.qet.scanSubject = none ∧
        p.qet.scanPredicate = some (tg.nodes.getD i default).triple.p ∧
        p.qet.scanObject = some (tg.nodes.getD i default).triple.o ∧
        p.qet.varCols = [((tg.nodes.getD i default).triple.s, 0)] ∧
        p.includedNodes = ({i} : Finset Nat)) ∧
    (((tg.nodes.getD i default).vars.length = 1 ∧
        isVariable (tg.nodes.getD i default).triple.s = false ∧
        isVariable (tg.nodes.getD i default).triple.o = true) →
      ∃ p, seedPlansForNode qec tg i = .ok [p] ∧
        p.qet.opType = .scan ∧
        p.qet.scanType = some .PSO_BOUND_S ∧
        p.qet.scanSubject = some (tg.nodes.getD i default).triple.s ∧
        p.qet.scanPredicate = some (tg.nodes.getD i default).triple.p ∧
        p.qet.scanObject = none ∧
        p.qet.varCols = [((tg.nodes.getD i default).triple.o, 0)] ∧
        p.includedNodes = ({i} : Finset Nat)) ∧
    (((tg.nodes.getD i default).vars.length = 2 ∧
        isVariable (tg.nodes.getD i default).triple.p = false) →
      ∃ p q, seedPlansForNode qec tg i = .ok [p, q] ∧
        p.qet.opType = .scan ∧ q.qet.opType = .scan ∧
        p.qet.scanType = some .PSO_FREE_S ∧
        q.qet.scanType = some .POS_FREE_O ∧
        p.qet.varCols = [((tg.nodes.getD i default).triple.s, 0),
                         ((tg.nodes.getD i default).triple.o, 1)] ∧
        q.qet.varCols = [((tg.nodes.getD i default).triple.o, 0),
                         ((tg.nodes.getD i default).triple.s, 1)] ∧
        p.includedNodes = ({i} : Finset Nat) ∧
        q.includedNodes = ({i} : Finset Nat)) := by
  have hcvlen : ¬ ((tg.nodes.getD i default).cvar.length > 0) := by
    rw [hcv]
    simp
  refine ⟨?_, ?_, ?_⟩
  · rintro ⟨h1, hs⟩
    unfold seedPlansForNode
    dsimp only
    rw [if_neg hcvlen, if_neg (by omega), if_pos h1, if_pos hs]
    exact ⟨_, rfl, rfl, rfl, rfl, rfl, rfl, rfl, rfl⟩
  · rintro ⟨h1, hs, ho⟩
    unfold seedPlansForNode
    dsimp only
    rw [if_neg hcvlen, if_neg (by omega), if_pos h1,
      if_neg (by simp only [hs]; decide), if_pos ho]
    exact ⟨_, rfl, rfl, rfl, rfl, rfl, rfl, rfl, rfl⟩
  · rintro ⟨h2, hp⟩
    unfold seedPlansForNode
    dsimp only
    rw [if_neg hcvlen, if_neg (by omega), if_neg (by omega), if_pos h2,
      if_neg (by simp only [hp]; decide)]
    exact ⟨_, _, rfl, rfl, rfl, rfl, rfl, rfl, rfl, rfl, rfl⟩

/-- A single one-variable triple, for the C7 witness. -/
def oneTripleTg : TripleGraph :=
  createTripleGraph { whereClauseTriples := [⟨"?x", "<p>", "<o>"⟩] }

/-! Text-clique collapsing and plan selection (`collapseTextCliques`,
`getOrderByRow`, `getTextLimit`, `createExecutionTree`), needed for the
text-limit claim (C6). -/

/-- Modelled from the spec: the co-occurrence predicate
`IN_CONTEXT_RELATION` (its literal spelling lives outside the verified
sources; only identity comparisons matter). -/
def IN_CONTEXT_RELATION : String := "<in-context>"

/-- Modelled from the spec: the co-occurrence predicate
`HAS_CONTEXT_RELATION`. -/
def HAS_CONTEXT_RELATION : String := "<has-context>"

/-- `TripleGraph::isTextNode`: the node exists and its predicate is one
of the two context predicates. -/
def isTextNode (tg : TripleGraph) (i : Nat) : Bool :=
  decide (i < tg.nodes.length) &&
    (((tg.nodes.getD i default).triple.p = IN_CONTEXT_RELATION) ||
     ((tg.nodes.getD i default).triple.p = HAS_CONTEXT_RELATION))

/-- First pass of `identifyTextCliques`: collect the context variables
(the variable endpoint of every text triple whose other endpoint is not a
variable); a text triple with two non-variable endpoints is a
`BAD_QUERY`. -/
def identifyCvarsGo (tg : TripleGraph) :
    Nat → Nat → List String → Except PlanError (List String)
  | 0, _, acc => .ok acc
  | fuel + 1, i, acc => do
      let acc' ←
        if isTextNode tg i then do
          let t := (tg.nodes.getD i default).triple
          let acc1 ←
            if ¬ (isVariable t.s = true) then
              if isVariable t.o then pure (insertUnique acc t.o)
              else throw (.badQuery "Triples need at least one variable.")
            else pure acc
          if ¬ (isVariable t.o = true) then
            if isVariable t.s then pure (insertUnique acc1 t.s)
            else throw (.badQuery "Triples need at least one variable.")
          else pure acc1
        else pure acc
      identifyCvarsGo tg fuel (i + 1) acc'

/-- Append a node id to the clique of `key` (the C++
`contextVarToTextNodesIds[key].push_back(i)`). -/
def pushEntry (m : List (String × List Nat)) (key : String) (i : Nat) :
    List (String × List Nat) :=
  match m with
  | [] => [(key, [i])]
  | (k, l) :: rest =>
      if k = key then (k, l ++ [i]) :: rest else (k, l) :: pushEntry rest key i

/-- Second pass of `identifyTextCliques`: group the text nodes by their
context variable; `AD_CHECK_EQ` rejects a text triple with both
endpoints being context variables. -/
def identifyMapGo (tg : TripleGraph) (cvars : List String) :
    Nat → Nat → List (String × List Nat) →
    Except PlanError (List (String × List Nat))
  | 0, _, acc => .ok acc
  | fuel + 1, i, acc => do
      let acc' ←
        if isTextNode tg i then do
          let t := (tg.nodes.getD i default).triple
          let acc1 ←
            if t.s ∈ cvars then
              if t.o ∈ cvars then throw PlanError.checkFailed
              else pure (pushEntry acc t.s i)
            else pure acc
          if t.o ∈ cvars then
            if t.s ∈ cvars then throw PlanError.checkFailed
            else pure (pushEntry acc1 t.o i)
          else pure acc1
        else pure acc
      identifyMapGo tg cvars fuel (i + 1) acc'

/-- `TripleGraph::identifyTextCliques`: context-variable → text-node-ids
map, in first-insertion order (the C++ map's iteration order is
unspecified). -/
def identifyTextCliques (tg : TripleGraph) :
    Except PlanError (List (String × List Nat)) := do
  let cvars ← identifyCvarsGo tg tg.adjLists.length 0 []
  identifyMapGo tg cvars tg.adjLists.length 0 []

/-- Insert into a sorted duplicate-free list (the contents of a
`std::set<size_t>`). -/
def insertSortedUnique : List Nat → Nat → List Nat
  | [], x => [x]
  | y :: ys, x =>
      if x < y then x :: y :: ys
      else if x = y then y :: ys
      else y :: insertSortedUnique ys x

/-- The sorted duplicate-free contents of a list of naturals. -/
def natSetOfList (l : List Nat) : List Nat := l.foldl insertSortedUnique []

/-- Node constructor `Node(id, cvar, wordPart, trips)` for a collapsed
text node; modelled from the spec, its variable set is the union of the
variable endpoints of the collapsed triples. -/
def mkTextNode (id : Nat) (cvar wordPart : String)
    (trips : List SparqlTriple) : TGNode :=
  { id := id, triple := default, cvar := cvar, wordPart := wordPart,
    vars := trips.foldl
      (fun acc t =>
        let acc := if isVariable t.s then insertUnique acc t.s else acc
        if isVariable t.o then insertUnique acc t.o else acc) [] }

/-- The word part of one collapsed clique: the non-variable counterpart
of each text triple whose other endpoint is the context variable,
space-separated in clique order. -/
def cliqueWordPart (tg : TripleGraph) (cvar : String) (nids : List Nat) :
    String :=
  nids.foldl
    (fun wp nid =>
      let t := (tg.nodes.getD nid default).triple
      let wp :=
        if t.s = cvar ∧ ¬ (isVariable t.o = true) then
          (if wp.length > 0 then wp ++ " " ++ t.o else t.o)
        else wp
      if t.o = cvar ∧ ¬ (isVariable t.s = true) then
        (if wp.length > 0 then wp ++ " " ++ t.s else t.s)
      else wp) ""

/-- `TripleGraph::collapseTextCliques`: replace each text clique by one
synthetic text node (ids `0 .. m-1` in clique order), renumber the
remaining nodes contiguously after them in storage order, and rebuild the
adjacency lists under the new numbering (removed ids are redirected to
their clique node; the clique node drops edges into its own clique). -/
def collapseTextCliques (tg : TripleGraph) :
    Except PlanError TripleGraph := do
  let cvarsToTextNodes ← identifyTextCliques tg
  if cvarsToTextNodes.length = 0 then pure tg
  else
    let cliques := cvarsToTextNodes.enum
    let removed : List (Nat × Nat) :=
      cliques.foldl
        (fun acc c => acc ++ c.2.2.map (fun nid => (nid, c.1))) []
    let tnAdjOldIds : List (List Nat) :=
      cliques.map
        (fun c =>
          c.2.2.foldl (fun acc nid => acc ++ tg.adjLists.getD nid []) [])
    let textNodes : List TGNode :=
      cliques.map
        (fun c =>
          mkTextNode c.1 c.2.1 (cliqueWordPart tg c.2.1 c.2.2)
            (c.2.2.map (fun nid => (tg.nodes.getD nid default).triple)))
    let keptOld : List TGNode :=
      tg.nodes.filter (fun n => (removed.lookup n.id).isNone)
    let m := textNodes.length
    let idMapOldToNew : List (Nat × Nat) :=
      keptOld.enum.map (fun e => (e.2.id, m + e.1))
    let keptNew : List TGNode :=
      keptOld.enum.map (fun e => { e.2 with id := m + e.1 })
    let translate : Nat → Option Nat → Option Nat := fun nid selfIdx =>
      match removed.lookup nid with
      | some cid => if selfIdx = some cid then none else some cid
      | none => idMapOldToNew.lookup nid
    let textAdj : List (List Nat) :=
      tnAdjOldIds.enum.map
        (fun e =>
          natSetOfList (e.2.filterMap (fun nid => translate nid (some e.1))))
    let keptAdj : List (List Nat) :=
      keptOld.map
        (fun n =>
          natSetOfList
            ((tg.adjLists.getD n.id []).filterMap
              (fun nid => translate nid none)))
    pure { nodes := textNodes ++ keptNew, adjLists := textAdj ++ keptAdj }

/-- `TripleGraph::isPureTextQuery`: a single node that is a collapsed
text node. -/
def isPureTextQuery (tg : TripleGraph) : Bool :=
  decide (tg.nodes.length = 1) &&
    decide ((tg.nodes.headD default).cvar.length > 0)

/-- `QueryPlanner::pureTextQuery`: the text-for-contexts leaf whose two
columns are the context variable and its score. -/
def pureTextQuery (qec : QECModel) (tg : TripleGraph) : SubtreePlan :=
  let node := tg.nodes.headD default
  let sz := qec.textSize node.wordPart 0
  { qet :=
      { opType := .textForContexts,
        varCols := [(node.cvar, 0), ("SCORE(" ++ node.cvar ++ ")", 1)],
        contextVars := [node.cvar], sortedOn := 0, width := 2,
        sizeEst := sz, costEst := sz },
    includedNodes := {0} }

/-- `QueryExecutionTree::getVariableColumn`, modelled as an association
lookup defaulting to column 0. -/
def lookupVarCol (qet : QET) (v : String) : Nat :=
  (qet.varCols.lookup v).getD 0

/-- `QueryPlanner::getOrderByRow`: for a single ascending key, keep the
plan when it is already sorted on that column and wrap it in a sort
otherwise; for every other order-by list wrap it in a multi-key order-by
operator.  Both wrappers carry the previous plan's variable columns and
context variables. -/
def getOrderByRow (pq : ParsedQuery) (dpTab : List (List SubtreePlan)) :
    List SubtreePlan :=
  (dpTab.getLastD []).map
    (fun prev =>
      if pq.orderBy.length = 1 ∧ (pq.orderBy.headD default).desc = false then
        let col := lookupVarCol prev.qet (pq.orderBy.headD default).key
        if col = prev.qet.sortedOn then prev
        else
          { qet :=
              { opType := .sort, varCols := prev.qet.varCols,
                contextVars := prev.qet.contextVars, sortedOn := col,
                width := prev.qet.width, sizeEst := prev.qet.sizeEst,
                costEst := prev.qet.costEst + prev.qet.sizeEst },
            includedNodes := prev.includedNodes,
            includedFilters := prev.includedFilters }
      else
        let sortIndices :=
          pq.orderBy.map (fun ob => (lookupVarCol prev.qet ob.key, ob.desc))
        { qet :=
            { opType := .orderBy, varCols := prev.qet.varCols,
              contextVars := prev.qet.contextVars,
              sortedOn := (sortIndices.headD (0, false)).1,
              width := prev.qet.width, sizeEst := prev.qet.sizeEst,
              costEst := prev.qet.costEst + prev.qet.sizeEst },
          includedNodes := prev.includedNodes,
          includedFilters := prev.includedFilters })

/-- Numeric value of a digit sequence. -/
def digitsVal (l : List Char) : Int :=
  l.foldl (fun acc c => acc * 10 + ((c.toNat - '0'.toNat : Nat) : Int)) 0

/-- The C `atol`: skip leading whitespace, read an optional sign and the
longest digit run (overflow on a 64-bit `long` is undefined behaviour in
the source and left unmodelled: theorems about it carry a range
hypothesis). -/
def atol (s : String) : Int :=
  let cs := s.data.dropWhile
    (fun c => c = ' ' ∨ c = '\t' ∨ c = '\n' ∨ c = '\r' ∨ c = '\x0b' ∨
      c = '\x0c')
  match cs with
  | [] => 0
  | c :: rest =>
      if c = '-' then -(digitsVal (rest.takeWhile (fun c => c.isDigit)))
      else if c = '+' then digitsVal (rest.takeWhile (fun c => c.isDigit))
      else digitsVal ((c :: rest).takeWhile (fun c => c.isDigit))

/-- The C++ `static_cast<size_t>` applied to a `long` value. -/
def castSizeT (v : Int) : Nat := (v % ((2 : Int) ^ 64)).toNat

/-- `QueryPlanner::getTextLimit`: 1 for the empty string, otherwise
`static_cast<size_t>(atol(...))`. -/
def getTextLimit (textLimitString : String) : Nat :=
  if textLimitString.length = 0 then 1
  else castSizeT (atol textLimitString)

/-- `QueryPlanner::createExecutionTree`: build and collapse the triple
graph, fill the DP table (or use the pure-text fast path), add the
order-by row, pick the minimum-cost plan of the last row (`AD_CHECK_GT`
demands it be non-empty), then either wrap it in a DISTINCT operation
(returning immediately) or attach the parsed text limit. -/
def createExecutionTree (qec : QECModel) (pq : ParsedQuery) :
    Except PlanError QET := do
  let tg := createTripleGraph pq
  let tg ← collapseTextCliques tg
  let finalTab ←
    if isPureTextQuery tg then pure [[pureTextQuery qec tg]]
    else fillDpTab qec tg pq.filters
  let finalTab :=
    if pq.orderBy.length > 0 then finalTab ++ [getOrderByRow pq finalTab]
    else finalTab
  let lastRow := finalTab.getLastD []
  if lastRow.length = 0 then throw PlanError.checkFailed
  else
    let chosen := (pickMinPlan lastRow).getD default
    if pq.distinct then
      pure
        { chosen.qet with
          opType := .distinct
          keepIndices :=
            pq.selectedVariables.filterMap
              (fun v => chosen.qet.varCols.lookup v) }
    else
      pure { chosen.qet with textLimit := getTextLimit pq.textLimit }

/-- Witness for claim C7: the single-scan case at a concrete node. -/
theorem claimC7_witness :
    ∃ p, seedPlansForNode qec0 oneTripleTg 0 = .ok [p] ∧
      p.qet.opType = .scan ∧
      p.qet.scanType = some .POS_BOUND_O ∧
      p.qet.scanSubject = none ∧
      p.qet.scanPredicate = some "<p>" ∧
      p.qet.scanObject = some "<o>" ∧
      p.qet.varCols = [("?x", 0)] ∧
      p.includedNodes = ({0} : Finset Nat) :=
  (claimC7_theorem qec0 oneTripleTg 0 rfl).1 ⟨rfl, rfl⟩

/-! Claim C6: the text limit. -/

lemma except_bind_ok {ε α β : Type} (a : α) (f : α → Except ε β) :
    (Except.ok a >>= f) = f a := rfl

/-- Numeric value of a digit string, as a natural number. -/
def natDigitsVal (l : List Char) : Nat :=
  l.foldl (fun acc c => acc * 10 + (c.toNat - '0'.toNat)) 0

lemma digitsVal_aux (l : List Char) :
    ∀ n : Nat,
      l.foldl (fun acc c => acc * 10 + ((c.toNat - '0'.toNat : Nat) : Int))
        (n : Int)
      = ((l.foldl (fun acc c => acc * 10 + (c.toNat - '0'.toNat)) n : Nat) :
          Int) := by
  induction l with
  | nil => intro n; rfl
  | cons c rest ih =>
      intro n
      simp only [List.foldl_cons]
      rw [show ((n : Int) * 10 + ((c.toNat - '0'.toNat : Nat) : Int))
            = ((n * 10 + (c.toNat - '0'.toNat) : Nat) : Int) by push_cast; ring]
      exact ih _

lemma digitsVal_eq_natDigitsVal (l : List Char) :
    digitsVal l = (natDigitsVal l : Int) := digitsVal_aux l 0

lemma takeWhile_all {p : Char → Bool} :
    ∀ {l : List Char}, (∀ c ∈ l, p c = true) → l.takeWhile p = l := by
  intro l
  induction l with
  | nil => intro _; rfl
  | cons c rest ih =>
      intro h
      rw [List.takeWhile_cons, h c (List.mem_cons_self _ _)]
      rw [ih (fun d hd => h d (List.mem_cons_of_mem _ hd))]
      rfl

lemma digit_not_space {c : Char} (h : c.isDigit = true) :
    ¬ (c = ' ' ∨ c = '\t' ∨ c = '\n' ∨ c = '\r' ∨ c = '\x0b' ∨
      c = '\x0c') := by
  rintro (rfl | rfl | rfl | rfl | rfl | rfl) <;> exact absurd h (by decide)

/-- `atol` on a pure digit string is its decimal value. -/
lemma atol_digits {s : String} (hne : s.data ≠ [])
    (hdig : ∀ c ∈ s.data, c.isDigit = true) :
    atol s = (natDigitsVal s.data : Int) := by
  unfold atol
  dsimp only
  cases hd : s.data with
  | nil => exact absurd hd hne
  | cons c rest =>
      have hc : c.isDigit = true :=
        hdig c (by rw [hd]; exact List.mem_cons_self _ _)
      have hnspace := digit_not_space hc
      have htak : (c :: rest).takeWhile (fun c => c.isDigit) = c :: rest :=
        takeWhile_all (fun d hd2 => hdig d (by rw [hd]; exact hd2))
      have hcm : ¬ (c = '-') := by
        intro hcon; rw [hcon] at hc; exact absurd hc (by decide)
      have hcp : ¬ (c = '+') := by
        intro hcon; rw [hcon] at hc; exact absurd hc (by decide)
      rw [List.dropWhile_cons, if_neg (by simpa using hnspace)]
      dsimp only
      rw [if_neg hcm, if_neg hcp, htak]
      exact digitsVal_eq_natDigitsVal (c :: rest)

/-- A DISTINCT query with text limit string "5" (C6 counterexample). -/
def c6distinctPq : ParsedQuery :=
  { whereClauseTriples := [⟨"?x", "<p>", "<o>"⟩],
    selectedVariables := ["?x"], distinct := true, textLimit := "5" }

/-- Claim C6, counterexample.  For a DISTINCT query, the
`createExecutionTree` code returns the distinct-wrapped tree before the
`setTextLimit` call, so the parsed text limit (5 here) is never attached:
the returned tree still carries the default text limit 1. -/
theorem claimC6_counterexample :
    (createExecutionTree qec0 c6distinctPq).map (fun t => t.textLimit)
      = .ok 1 ∧
    getTextLimit "5" = 5 ∧ (1 : Nat) ≠ 5 :=
  ⟨rfl, rfl, by decide⟩

/-- Claim C6, amended: for every parsed query without DISTINCT, the tree
`createExecutionTree` returns carries exactly the parsed text limit; the
text-limit string parses as a decimal — the empty string yields 1 and a
non-empty digit string (within the 64-bit long range) yields its decimal
value.  (For DISTINCT queries the distinct-wrapped tree is returned
before the text limit is attached.) -/
theorem claimC6_theorem (qec : QECModel) (pq : ParsedQuery) (t : QET)
    (hdist : pq.distinct = false)
    (h : createExecutionTree qec pq = .ok t) :
    t.textLimit = getTextLimit pq.textLimit ∧
    getTextLimit "" = 1 ∧
    (∀ s : String, s.data ≠ [] → (∀ c ∈ s.data, c.isDigit = true) →
      natDigitsVal s.data < 2 ^ 63 →
      getTextLimit s = natDigitsVal s.data) := by
  refine ⟨?_, rfl, ?_⟩
  · unfold createExecutionTree at h
    dsimp only at h
    cases hcol : collapseTextCliques (createTripleGraph pq) with
    | error e => rw [hcol] at h; exact Except.noConfusion h
    | ok tg2 =>
        rw [hcol] at h
        simp only [except_bind_ok] at h
        by_cases hpt : isPureTextQuery tg2 = true
        · rw [if_pos hpt] at h
          simp only [pure_bind] at h
          rw [hdist] at h
          by_cases hlen :
              ((if pq.orderBy.length > 0 then
                  [[pureTextQuery qec tg2]] ++
                    [getOrderByRow pq [[pureTextQuery qec tg2]]]
                else [[pureTextQuery qec tg2]]).getLastD []).length = 0
          · rw [if_pos hlen] at h
            exact Except.noConfusion h
          · rw [if_neg hlen, if_neg (by decide)] at h
            injection h with h
            rw [← h]
        · rw [if_neg hpt] at h
          cases hft : fillDpTab qec tg2 pq.filters with
          | error e => rw [hft] at h; exact Except.noConfusion h
          | ok ftab =>
              rw [hft] at h
              simp only [except_bind_ok] at h
              rw [hdist] at h
              by_cases hlen :
                  ((if pq.orderBy.length > 0 then
                      ftab ++ [getOrderByRow pq ftab]
                    else ftab).getLastD []).length = 0
              · rw [if_pos hlen] at h
                exact Except.noConfusion h
              · rw [if_neg hlen, if_neg (by decide)] at h
                injection h with h
                rw [← h]
  · intro s hne hdig hrange
    unfold getTextLimit
    rw [if_neg (by
      intro hlen
      exact hne (by
        cases hd : s.data with
        | nil => rfl
        | cons c rest =>
            rw [show s.length = s.data.length from rfl, hd] at hlen
            exact absurd hlen (by simp)))]
    rw [atol_digits hne hdig]
    unfold castSizeT
    rw [Int.emod_eq_of_lt (by positivity)
      (by exact_mod_cast lt_trans hrange (by norm_num))]
    exact Int.toNat_natCast _

/-- A non-DISTINCT query with text limit string "5" (C6 witness). -/
def c6plainPq : ParsedQuery :=
  { whereClauseTriples := [⟨"?x", "<p>", "<o>"⟩],
    selectedVariables := ["?x"], textLimit := "5" }

/-- The tree the planner returns for the witness query. -/
def c6tree : QET := (createExecutionTree qec0 c6plainPq).toOption.getD default

/-- Witness for the amended claim C6 at a concrete query. -/
theorem claimC6_witness :
    createExecutionTree qec0 c6plainPq = .ok c6tree ∧
    c6tree.textLimit = getTextLimit "5" ∧
    getTextLimit "5" = 5 :=
  ⟨rfl, (claimC6_theorem qec0 c6plainPq c6tree rfl rfl).1,
   (claimC6_theorem qec0 c6plainPq c6tree rfl rfl).2.2 "5" (by decide)
     (by decide) (by decide)⟩

end QP

/-!
Shallow embedding of the result exporter
(`ExportQueryExecutionTrees.cpp`): identifier resolution, the SPARQL-JSON
binding construction, the per-format streaming loops with their
cancellation checks, LIMIT/OFFSET slicing, and the wrapper functions that
tag cancellation errors.
-/

namespace EX

/-- A typed identifier (`Id`): a fixed-width value with a datatype tag.
The `Double` payload is modelled by the exact rational value of the IEEE
double (every finite double is a rational; the negative-zero double,
which has no distinct rational, is out of the model).  `Date` payloads
carry the already-formatted pair their datatype-specific formatter
produces (the formatter lives outside the verified sources). -/
inductive Id where
  | undef
  | intId (i : Int)
  | doubleId (q : ℚ)
  | boolId (b : Bool)
  | dateId (str typ : String)
  | vocabIndex (n : Nat)
  | localVocabIndex (n : Nat)
  | wordVocabIndex (n : Nat)
  | textRecordIndex (n : Nat)
  | blankNodeIndex (n : Nat)
deriving DecidableEq, Inhabited, Repr

/-- Modelled from the spec: the `xsd:int` datatype IRI constant
`XSD_INT_TYPE` (defined outside the verified sources). -/
def XSD_INT_TYPE : String := "http://www.w3.org/2001/XMLSchema#int"

/-- Modelled from the spec: the `xsd:decimal` datatype IRI constant. -/
def XSD_DECIMAL_TYPE : String := "http://www.w3.org/2001/XMLSchema#decimal"

/-- Modelled from the spec: the `xsd:boolean` datatype IRI constant. -/
def XSD_BOOLEAN_TYPE : String := "http://www.w3.org/2001/XMLSchema#boolean"

/-- `ExportQueryExecutionTrees::idToStringAndTypeForEncodedValue`,
parameterised over the C++ default stream formatting of a double
(`ss << d`, a library behaviour).  The outer `Option` distinguishes the
`AD_FAIL()` abort of the default branch (`none`) from a returned value;
the inner `Option` is the function's `std::nullopt` for `Undefined`.
A double with zero fractional part (`std::modf == 0.0`, i.e. an integer
value, i.e. denominator 1) is printed `std::fixed` with precision 0,
which for an exactly-integral double is its integer in decimal. -/
def idToStringAndTypeForEncodedValue (dfmt : ℚ → String) :
    Id → Option (Option (String × Option String))
  | .undef => some none
  | .doubleId q =>
      some (some
        (if q.den = 1 then toString q.num else dfmt q, some XSD_DECIMAL_TYPE))
  | .boolId b =>
      some (some (if b then "true" else "false", some XSD_BOOLEAN_TYPE))
  | .intId i => some (some (toString i, some XSD_INT_TYPE))
  | .dateId str typ => some (some (str, some typ))
  | .blankNodeIndex n => some (some ("_:bn" ++ toString n, none))
  | _ => none

/-- The external resolution context of the exporter: the identifier
table of the result, the global and local vocabularies (whose entries
are modelled as their final string representations — the `LiteralOrIri`
class lives outside the verified sources), the text index, and the
external escaping/formatting library functions. -/
structure ExportInput where
  idTable : List (List Id) := []
  vocab : Nat → String := fun _ => ""
  localVocab : Nat → String := fun _ => ""
  wordVocab : Nat → String := fun _ => ""
  textExcerpt : Nat → String := fun _ => ""
  doubleFormat : ℚ → String := fun _ => ""
  escapeCsv : String → String := fun s => s
  escapeTsv : String → String := fun s => s
  escapeXml : String → String := fun s => s
  rdfLiteralFromNormalized : String → String := fun s => s

/-- Cell of the identifier table at (row, column). -/
def tableAt (input : ExportInput) (r c : Nat) : Id :=
  ((input.idTable.getD r []).getD c Id.undef)

/-- First character test, written on the character list. -/
def startsWithChar (s : String) (c : Char) : Bool :=
  match s.data with
  | x :: _ => x = c
  | [] => false

/-- Test for a leading `_:` (blank-node label). -/
def startsWithUnderscoreColon (s : String) : Bool :=
  match s.data with
  | x :: y :: _ => x = '_' && y = ':'
  | _ => false

/-- `std::string::substr(pos)`. -/
def strDrop (s : String) (n : Nat) : String := String.mk (s.data.drop n)

/-- `ExportQueryExecutionTrees::idToStringAndType` in its default
instantiation (no quote stripping, no literal filter, identity escape),
the one the JSON export paths call.  Word-vocabulary entries, vocabulary
entries (their string representation), and text excerpts resolve with a
null datatype; the encoded datatypes delegate to
`idToStringAndTypeForEncodedValue` (whose `AD_FAIL` branch is
unreachable from here and collapses to `none`). -/
def idToStringAndType (input : ExportInput) (id : Id) :
    Option (String × Option String) :=
  match id with
  | .wordVocabIndex n => some (input.wordVocab n, none)
  | .vocabIndex n => some (input.vocab n, none)
  | .localVocabIndex n => some (input.localVocab n, none)
  | .textRecordIndex n => some (input.textExcerpt n, none)
  | other =>
      match idToStringAndTypeForEncodedValue input.doubleFormat other with
      | some r => r
      | none => none

/-- Whether a vocabulary entry is a literal (modelled from the spec: its
string representation starts with a quote). -/
def entryIsLiteral (w : String) : Bool := startsWithChar w '"'

/-- Content of a literal or IRI without its surrounding punctuation
(modelled from the spec; `LiteralOrIri::getContent` lives outside the
verified sources). -/
def entryContent (w : String) : String :=
  if startsWithChar w '<' then String.mk (w.data.drop 1).dropLast
  else if startsWithChar w '"' then String.mk (w.data.drop 1).dropLast
  else w

/-- The flagged instantiation of `idToStringAndType` used by the CSV/TSV
export (`removeQuotesAndAngleBrackets`, `onlyReturnLiterals`, and an
escape function). -/
def idToStringAndTypeFlagged (removeQuotes onlyLiterals : Bool)
    (escape : String → String) (input : ExportInput) (id : Id) :
    Option (String × Option String) :=
  if onlyLiterals &&
      !(match id with
        | .vocabIndex _ => true
        | .localVocabIndex _ => true
        | _ => false) then none
  else
    let handleIriOrLiteral : String → Option (String × Option String) :=
      fun word =>
        if onlyLiterals && !(entryIsLiteral word) then none
        else if removeQuotes then some (escape (entryContent word), none)
        else some (escape word, none)
    match id with
    | .wordVocabIndex n => some (escape (input.wordVocab n), none)
    | .vocabIndex n => handleIriOrLiteral (input.vocab n)
    | .localVocabIndex n => handleIriOrLiteral (input.localVocab n)
    | .textRecordIndex n => some (escape (input.textExcerpt n), none)
    | other =>
        match idToStringAndTypeForEncodedValue input.doubleFormat other with
        | some r => r
        | none => none

/-- Claim C9: `idToStringAndTypeForEncodedValue` resolves an Undefined
id to nothing; an Int id to its decimal string typed `xsd:int`; a Bool
id to `true`/`false` typed `xsd:boolean`; a Double id with zero
fractional part to the fixed-point zero-decimals string (its integer in
decimal) and any other Double to the default stream formatting, both
typed `xsd:decimal`; and a BlankNodeIndex id with index `N` to `_:bn<N>`
with null datatype. -/
theorem claimC9_theorem (dfmt : ℚ → String) :
    idToStringAndTypeForEncodedValue dfmt Id.undef = some none ∧
    (∀ i : Int, idToStringAndTypeForEncodedValue dfmt (Id.intId i) =
      some (some (toString i, some XSD_INT_TYPE))) ∧
    (∀ b : Bool, idToStringAndTypeForEncodedValue dfmt (Id.boolId b) =
      some (some (if b then "true" else "false", some XSD_BOOLEAN_TYPE))) ∧
    (∀ q : ℚ, q.den = 1 →
      idToStringAndTypeForEncodedValue dfmt (Id.doubleId q) =
        some (some (toString q.num, some XSD_DECIMAL_TYPE))) ∧
    (∀ q : ℚ, q.den ≠ 1 →
      idToStringAndTypeForEncodedValue dfmt (Id.doubleId q) =
        some (some (dfmt q, some XSD_DECIMAL_TYPE))) ∧
    (∀ n : Nat, idToStringAndTypeForEncodedValue dfmt (Id.blankNodeIndex n) =
      some (some ("_:bn" ++ toString n, none))) := by
  refine ⟨rfl, fun i => rfl, fun b => rfl, fun q hq => ?_, fun q hq => ?_,
    fun n => rfl⟩
  · simp [idToStringAndTypeForEncodedValue, hq]
  · simp [idToStringAndTypeForEncodedValue, hq]

/-- Witness for claim C9 at concrete identifiers (the integral double
5/1 and the non-integral double 7/2). -/
theorem claimC9_witness :
    ((5 : ℚ).den = 1 ∧
      idToStringAndTypeForEncodedValue (fun _ => "3.5") (Id.doubleId 5) =
        some (some ("5", some XSD_DECIMAL_TYPE))) ∧
    ((mkRat 7 2).den ≠ 1 ∧
      idToStringAndTypeForEncodedValue (fun _ => "3.5")
          (Id.doubleId (mkRat 7 2)) =
        some (some ("3.5", some XSD_DECIMAL_TYPE))) ∧
    idToStringAndTypeForEncodedValue (fun _ => "3.5") (Id.intId (-3)) =
      some (some ("-3", some XSD_INT_TYPE)) :=
  ⟨⟨by decide,
     (claimC9_theorem (fun _ => "3.5")).2.2.2.1 5 (by decide)⟩,
   ⟨by decide,
     (claimC9_theorem (fun _ => "3.5")).2.2.2.2.1 (mkRat 7 2) (by decide)⟩,
   (claimC9_theorem (fun _ => "3.5")).2.1 (-3)⟩

/-! The SPARQL-JSON binding object (`stringAndTypeToBinding`). -/

/-- Index of the last occurrence of a character (`std::string::rfind`). -/
def lastIndexOf (l : List Char) (c : Char) : Option Nat :=
  (l.enum.foldl
    (fun acc e => if e.2 = c then some e.1 else acc) none)

/-- `std::string::substr(pos, count)` (count clamps to the remainder). -/
def cppSubstr (s : String) (pos count : Nat) : String :=
  String.mk ((s.data.drop pos).take count)

/-- Subtraction as computed on `size_t` operands (wraps modulo `2^64`);
`quotePos - 1` underflows in the source when the quote is the first
character. -/
def sizeTSub (a b : Nat) : Nat := (a + 2 ^ 64 - b) % 2 ^ 64

/-- Character at an index (`std::string::operator[]`). -/
def charAt (s : String) (i : Nat) : Char := s.data.getD i (Char.ofNat 0)

/-- `stringAndTypeToBinding`: the SPARQL-JSON binding object for one
resolved value, as an ordered key/value list.  A non-null datatype gives
a typed literal; otherwise a leading `<` gives a `uri` (first and last
character stripped), a leading `_:` a `bnode`, a string without any `"`
a plain literal, and a string with a `"` a literal whose value is
`substr(1, quotePos - 1)` — the characters after the first one and
before the last quote — with an `@` suffix recorded as `xml:lang` and a
`^^<...>` suffix recorded as `datatype`.  The two `AD_CONTRACT_CHECK`
macros of the `^^` branch are modelled as `none` (process abort). -/
def stringAndTypeToBinding (entitystr : String) (xsdType : Option String) :
    Option (List (String × String)) :=
  match xsdType with
  | some t =>
      some [("value", entitystr), ("type", "literal"), ("datatype", t)]
  | none =>
      if startsWithChar entitystr '<' then
        some [("value", cppSubstr entitystr 1 (sizeTSub entitystr.length 2)),
              ("type", "uri")]
      else if startsWithUnderscoreColon entitystr then
        some [("value", strDrop entitystr 2), ("type", "bnode")]
      else
        match lastIndexOf entitystr.data '"' with
        | none => some [("value", entitystr), ("type", "literal")]
        | some quotePos =>
            let value := cppSubstr entitystr 1 (sizeTSub quotePos 1)
            if quotePos < entitystr.length - 1 ∧
                charAt entitystr (quotePos + 1) = '@' then
              some [("value", value), ("type", "literal"),
                    ("xml:lang", strDrop entitystr (quotePos + 2))]
            else if quotePos < entitystr.length - 2 ∧
                charAt entitystr (quotePos + 1) = '^' then
              if charAt entitystr (quotePos + 2) = '^' ∧
                  entitystr.length ≥ quotePos + 5 then
                some [("value", value), ("type", "literal"),
                      ("datatype",
                        String.mk
                          ((entitystr.data.drop (quotePos + 4)).dropLast))]
              else none
            else some [("value", value), ("type", "literal")]

/-- Index of the first occurrence of a character. -/
def firstIndexOf (l : List Char) (c : Char) : Option Nat :=
  (l.enum.find? (fun e => e.2 = c)).map (·.1)

/-- The literal value the claim describes, for comparison: the part of
the string strictly between the first and the last `"`. -/
def betweenFirstLast (s : String) : String :=
  match firstIndexOf s.data '"', lastIndexOf s.data '"' with
  | some i, some j => String.mk ((s.data.drop (i + 1)).take (j - i - 1))
  | _, _ => ""

/-- Claim C8, counterexample.  For a resolved string with null datatype
that contains quotes but does not start with one — e.g. the text-record
string `ab"cd"` — the code takes `substr(1, quotePos - 1)`, the part
after the *first character* (not after the first quote): the emitted
value is `b"cd`, not the part `cd` between the first and last quote that
the claim describes. -/
theorem claimC8_counterexample :
    stringAndTypeToBinding "ab\"cd\"" none =
      some [("value", "b\"cd"), ("type", "literal")] ∧
    betweenFirstLast "ab\"cd\"" = "cd" ∧
    ("b\"cd" : String) ≠ "cd" :=
  ⟨rfl, rfl, by decide⟩

/-- Claim C8, amended: the binding constructor behaves as the claim says
for the IRI, blank-node, quote-free, language-tag (`@lang`) and
datatype-suffix (`^^<iri>`) cases, but the literal value of a quoted
string is `substr(1, lastQuote - 1)` — the characters after the first
character of the string and before its last quote.  This coincides with
"the part between the first and last quote" exactly when the string
starts with the quote (the shape every vocabulary literal has). -/
theorem claimC8_theorem :
    (∀ s t : String,
      stringAndTypeToBinding s (some t) =
        some [("value", s), ("type", "literal"), ("datatype", t)]) ∧
    (∀ s : String, startsWithChar s '<' = true →
      stringAndTypeToBinding s none =
        some [("value", cppSubstr s 1 (sizeTSub s.length 2)),
              ("type", "uri")]) ∧
    (∀ s : String, startsWithChar s '<' = false →
      startsWithUnderscoreColon s = true →
      stringAndTypeToBinding s none =
        some [("value", strDrop s 2), ("type", "bnode")]) ∧
    (∀ s : String, startsWithChar s '<' = false →
      startsWithUnderscoreColon s = false →
      lastIndexOf s.data '"' = none →
      stringAndTypeToBinding s none =
        some [("value", s), ("type", "literal")]) ∧
    (∀ s : String, ∀ j : Nat, startsWithChar s '<' = false →
      startsWithUnderscoreColon s = false →
      lastIndexOf s.data '"' = some j →
      ¬ (j < s.length - 1 ∧ charAt s (j + 1) = '@') →
      ¬ (j < s.length - 2 ∧ charAt s (j + 1) = '^') →
      stringAndTypeToBinding s none =
        some [("value", cppSubstr s 1 (sizeTSub j 1)),
              ("type", "literal")]) ∧
    (∀ s : String, ∀ j : Nat, startsWithChar s '<' = false →
      startsWithUnderscoreColon s = false →
      lastIndexOf s.data '"' = some j →
      (j < s.length - 1 ∧ charAt s (j + 1) = '@') →
      stringAndTypeToBinding s none =
        some [("value", cppSubstr s 1 (sizeTSub j 1)),
              ("type", "literal"),
              ("xml:lang", strDrop s (j + 2))]) ∧
    (∀ s : String, ∀ j : Nat, startsWithChar s '<' = false →
      startsWithUnderscoreColon s = false →
      lastIndexOf s.data '"' = some j →
      ¬ (j < s.length - 1 ∧ charAt s (j + 1) = '@') →
      (j < s.length - 2 ∧ charAt s (j + 1) = '^') →
      (charAt s (j + 2) = '^' ∧ s.length ≥ j + 5) →
      stringAndTypeToBinding s none =
        some [("value", cppSubstr s 1 (sizeTSub j 1)),
              ("type", "literal"),
              ("datatype", String.mk ((s.data.drop (j + 4)).dropLast))]) ∧
    (∀ s : String, ∀ j : Nat, startsWithChar s '"' = true →
      lastIndexOf s.data '"' = some j → 1 ≤ j → j < 2 ^ 64 →
      cppSubstr s 1 (sizeTSub j 1) = betweenFirstLast s) := by
  refine ⟨fun s t => rfl, ?_, ?_, ?_, ?_, ?_, ?_, ?_⟩
  · intro s hlt
    unfold stringAndTypeToBinding
    rw [if_pos hlt]
  · intro s hlt hun
    unfold stringAndTypeToBinding
    rw [if_neg (by simp [hlt]), if_pos hun]
  · intro s hlt hun hq
    unfold stringAndTypeToBinding
    rw [if_neg (by simp [hlt]), if_neg (by simp [hun]), hq]
  · intro s j hlt hun hq hat hhat
    unfold stringAndTypeToBinding
    rw [if_neg (by simp [hlt]), if_neg (by simp [hun]), hq]
    dsimp only
    rw [if_neg hat, if_neg hhat]
  · intro s j hlt hun hq hat
    unfold stringAndTypeToBinding
    rw [if_neg (by simp [hlt]), if_neg (by simp [hun]), hq]
    dsimp only
    rw [if_pos hat]
  · intro s j hlt hun hq hat hhat hck
    unfold stringAndTypeToBinding
    rw [if_neg (by simp [hlt]), if_neg (by simp [hun]), hq]
    dsimp only
    rw [if_neg hat, if_pos hhat, if_pos hck]
  · intro s j hq hlast hj1 hj64
    have hfirst : firstIndexOf s.data '"' = some 0 := by
      unfold startsWithChar at hq
      cases hd : s.data with
      | nil => rw [hd] at hq; exact absurd hq (by simp)
      | cons c rest =>
          rw [hd] at hq
          simp only [decide_eq_true_eq] at hq
          unfold firstIndexOf
          rw [hq]
          simp [List.enum_cons]
    unfold betweenFirstLast
    rw [hfirst, hlast]
    have hsub : sizeTSub j 1 = j - 1 := by
      unfold sizeTSub
      omega
    rw [hsub]
    rfl

/-- Witness for the amended claim C8 at concrete strings: a language-
tagged literal, a datatype-suffixed literal, and the between-quotes
agreement for a string starting with a quote. -/
theorem claimC8_witness :
    stringAndTypeToBinding "\"bonjour\"@fr" none =
      some [("value", "bonjour"), ("type", "literal"), ("xml:lang", "fr")] ∧
    stringAndTypeToBinding "\"5\"^^<http://t>" none =
      some [("value", "5"), ("type", "literal"),
            ("datatype", "http://t")] ∧
    cppSubstr "\"bonjour\"@fr" 1 (sizeTSub 8 1) =
      betweenFirstLast "\"bonjour\"@fr" := by
  refine ⟨?_, ?_, ?_⟩
  · have h := (claimC8_theorem).2.2.2.2.2.1 "\"bonjour\"@fr" 8 (by decide)
      (by decide) (by decide) (by decide)
    rw [h]
    rfl
  · have h := (claimC8_theorem).2.2.2.2.2.2.1 "\"5\"^^<http://t>" 2
      (by decide) (by decide) (by decide) (by decide) (by decide)
      (by decide)
    rw [h]
    rfl
  · exact (claimC8_theorem).2.2.2.2.2.2.2 "\"bonjour\"@fr" 8 (by decide)
      (by decide) (by decide) (by decide)

/-! LIMIT/OFFSET slicing and the per-format streaming loops. -/

/-- Modelled from the spec: the `LimitOffsetClause` of the parsed query
(the class lives outside the verified sources).  An unset offset is 0;
an unset limit imposes no bound. -/
structure LimitOffsetClause where
  limit : Option Nat := none
  offset : Nat := 0
deriving DecidableEq, Inhabited, Repr

/-- `LimitOffsetClause::actualOffset`, clamped to the table size. -/
def actualOffset (c : LimitOffsetClause) (n : Nat) : Nat := min c.offset n

/-- `LimitOffsetClause::upperBound`, clamped to the table size. -/
def upperBound (c : LimitOffsetClause) (n : Nat) : Nat :=
  match c.limit with
  | none => n
  | some l => min (c.offset + l) n

/-- `getRowIndices`: the half-open index range
`[actualOffset(n), upperBound(n))` (`std::views::iota`). -/
def getRowIndices (c : LimitOffsetClause) (n : Nat) : List Nat :=
  List.range' (actualOffset c n) (upperBound c n - actualOffset c n)

/-- The media types the exporter dispatches on. -/
inductive MediaType where
  | csv | tsv | octetStream | turtle | sparqlXml | sparqlJson | qleverJson
deriving DecidableEq, Inhabited, Repr

/-- Errors surfaced by the exporter: a cancellation (tagged by the
wrapper that catches it), a refusal (`AD_THROW` with a message), or a
process-fatal assertion (`AD_FAIL` / failed contract check). -/
inductive ExpError where
  | cancellation (opTag : String)
  | refusal (msg : String)
  | assertion
deriving DecidableEq, Inhabited, Repr

/-- The cancellation handle, modelled by the index of the first
`throwIfCancelled` poll at which it reads as set (`none`: never). -/
def cancelledAt (h : Option Nat) (poll : Nat) : Bool :=
  match h with
  | none => false
  | some k => decide (k ≤ poll)

/-- One yielded chunk of a streaming export.  String chunks carry their
bytes; the binary export yields the raw little-endian bytes of one
identifier (kept symbolic); a SPARQL-JSON row chunk carries its leading
comma flag and the binding object before serialisation (the `nlohmann`
dump is an external library call); a QLever-JSON row chunk carries the
row array, `none` marking an unbound entry. -/
inductive Chunk where
  | str (s : String)
  | idBytes (i : Id)
  | jsonRow (leadComma : Bool) (binding : List (String × List (String × String)))
  | qleverRow (row : List (Option String))
deriving DecidableEq, Inhabited, Repr

/-- Outcome of running a streaming export: the chunks yielded before the
generator finished or threw, the terminal error if any, and the number
of cancellation polls performed. -/
structure GenOut where
  chunks : List Chunk := []
  err : Option ExpError := none
  polls : Nat := 0
deriving DecidableEq, Inhabited, Repr

/-- The common row loop of the streaming select exports: yield the
chunks of one row, then poll the cancellation handle
(`cancellationHandle->throwIfCancelled()` after the row), then continue.
A renderer may itself abort (second component), modelling an assertion
inside the row. -/
def runRows (h : Option Nat)
    (render : Nat → List Chunk × Option ExpError) :
    List Nat → Nat → GenOut
  | [], _ => {}
  | r :: rest, poll =>
      let rc := render r
      match rc.2 with
      | some e => { chunks := rc.1, err := some e }
      | none =>
          if cancelledAt h poll then
            { chunks := rc.1, err := some (.cancellation ""), polls := 1 }
          else
            let g := runRows h render rest (poll + 1)
            { chunks := rc.1 ++ g.chunks, err := g.err, polls := g.polls + 1 }

/-- `selectedVariablesToColumnIndices` (declared outside the verified
sources; modelled from the spec): one entry per selected variable, the
column index from the tree's variable map, `none` when unbound; the flag
keeps or strips the leading question mark of the stored name. -/
def selectedVariablesToColumnIndices (varColMap : List (String × Nat))
    (selectedVars : List String) (includeQuestionMark : Bool) :
    List (Option (String × Nat)) :=
  selectedVars.map
    (fun v =>
      match varColMap.lookup v with
      | some c =>
          some ((if includeQuestionMark then v else strDrop v 1), c)
      | none => none)

/-- The select clause and variable-column map of the tree feeding the
exporter. -/
structure SelectCtx where
  selectedVars : List String := []
  varColMap : List (String × Nat) := []
deriving DecidableEq, Inhabited, Repr

/-- Strip the leading question mark of each selected variable (both the
CSV header and the JSON heads do this). -/
def varsWithoutQuestionMark (vars : List String) : List String :=
  vars.map (fun v => strDrop v 1)

/-- Join strings with a separator. -/
def joinWith (sep : String) : List String → String
  | [] => ""
  | [x] => x
  | x :: rest => x ++ sep ++ joinWith sep rest

/-- One CSV/TSV row: per selected column, the escaped resolved value if
any (an unresolved cell stays empty), followed by the separator or the
final newline. -/
def csvTsvRow (isCsv : Bool) (input : ExportInput)
    (cols : List (Option (String × Nat))) (r : Nat) : List Chunk :=
  let escape := if isCsv then input.escapeCsv else input.escapeTsv
  let sep := if isCsv then "," else "\t"
  (cols.enum.map
    (fun jc =>
      (match jc.2 with
       | some vc =>
           match idToStringAndTypeFlagged isCsv false escape input
               (tableAt input r vc.2) with
           | some v => [Chunk.str v.1]
           | none => []
       | none => []) ++
      [Chunk.str (if jc.1 + 1 < cols.length then sep else "\n")])).flatten

/-- `selectQueryResultToStream` for the formats of the primary template:
the turtle contract check, the binary special case, and the CSV/TSV
loop with its header line. -/
def selectQueryResultToStream (fmt : MediaType) (input : ExportInput)
    (sc : SelectCtx) (lo : LimitOffsetClause) (h : Option Nat) : GenOut :=
  let n := input.idTable.length
  if fmt = .turtle then
    { err := some (.refusal "AD_CONTRACT_CHECK(format != MediaType::turtle)") }
  else
    let cols := selectedVariablesToColumnIndices sc.varColMap
      sc.selectedVars true
    if fmt = .octetStream then
      runRows h
        (fun r =>
          (cols.filterMap
            (fun oc => oc.map (fun vc => Chunk.idBytes (tableAt input r vc.2))),
           none))
        (getRowIndices lo n) 0
    else
      let isCsv := fmt = .csv
      let vlist :=
        if isCsv then varsWithoutQuestionMark sc.selectedVars
        else sc.selectedVars
      let head : List Chunk :=
        [Chunk.str (joinWith (if isCsv then "," else "\t") vlist),
         Chunk.str "\n"]
      let body := runRows h (fun r => (csvTsvRow isCsv input cols r, none))
        (getRowIndices lo n) 0
      { chunks := head ++ body.chunks, err := body.err, polls := body.polls }

/-- The inner content of one XML binding for a string without datatype
(the `strToBinding` lambda of `idToXMLBinding`). -/
def strToBindingXml (escape : String → String) (entitystr : String) :
    Option String :=
  if startsWithChar entitystr '<' then
    some ("<uri>" ++
      escape (cppSubstr entitystr 1 (sizeTSub entitystr.length 2)) ++
      "</uri>")
  else if startsWithUnderscoreColon entitystr then
    some ("<bnode>" ++ strDrop entitystr 2 ++ "</bnode>")
  else
    match lastIndexOf entitystr.data '"' with
    | none => some ("<literal>" ++ escape entitystr ++ "</literal>")
    | some quotePos =>
        let innerValue := cppSubstr entitystr 1 (sizeTSub quotePos 1)
        if quotePos < entitystr.length - 1 ∧
            charAt entitystr (quotePos + 1) = '@' then
          some ("<literal xml:lang=\"" ++ strDrop entitystr (quotePos + 2) ++
            "\">" ++ escape innerValue ++ "</literal>")
        else if quotePos < entitystr.length - 2 ∧
            charAt entitystr (quotePos + 1) = '^' then
          if charAt entitystr (quotePos + 2) = '^' ∧
              entitystr.length ≥ quotePos + 5 then
            some ("<literal datatype=\"" ++
              escape
                (String.mk ((entitystr.data.drop (quotePos + 4)).dropLast)) ++
              "\">" ++ escape innerValue ++ "</literal>")
          else none
        else some ("<literal>" ++ escape innerValue ++ "</literal>")

/-- `idToXMLBinding`: the `<binding>` element for one value, empty when
the identifier does not resolve; `none` models the assertion aborts of
the datatype branch. -/
def idToXMLBinding (varName : String) (id : Id) (input : ExportInput) :
    Option String :=
  match idToStringAndType input id with
  | none => some ""
  | some (stringValue, xsdType) =>
      let inner :=
        match xsdType with
        | some t =>
            some ("<literal datatype=\"" ++ t ++ "\">" ++ stringValue ++
              "</literal>")
        | none => strToBindingXml input.escapeXml stringValue
      inner.map
        (fun s =>
          "\n    <binding name=\"" ++ varName ++ "\">" ++ s ++ "</binding>")

/-- One XML result row (the `<result>` element and its bindings). -/
def xmlRow (input : ExportInput) (cols : List (Option (String × Nat)))
    (r : Nat) : List Chunk × Option ExpError :=
  let rec go : List (Option (String × Nat)) →
      List Chunk × Option ExpError
    | [] => ([], none)
    | oc :: rest =>
        match oc with
        | none => go rest
        | some vc =>
            match idToXMLBinding vc.1 (tableAt input r vc.2) input with
            | none => ([], some .assertion)
            | some s =>
                let g := go rest
                (Chunk.str s :: g.1, g.2)
  let g := go cols
  match g.2 with
  | some e => ([Chunk.str "\n  <result>"] ++ g.1, some e)
  | none =>
      ([Chunk.str "\n  <result>"] ++ g.1 ++ [Chunk.str "\n  </result>"],
       none)

/-- `selectQueryResultToStream<sparqlXml>`: preamble, head, the result
rows with their per-row cancellation polls, and the closing tags (only
reached when no row aborted or cancelled). -/
def selectQueryResultToStreamXml (input : ExportInput) (sc : SelectCtx)
    (lo : LimitOffsetClause) (h : Option Nat) : GenOut :=
  let n := input.idTable.length
  let cols := selectedVariablesToColumnIndices sc.varColMap
    sc.selectedVars false
  let pre : List Chunk :=
    [Chunk.str
      "<?xml version=\"1.0\"?>\n<sparql xmlns=\"http://www.w3.org/2005/sparql-results#\">",
     Chunk.str "\n<head>"] ++
    (varsWithoutQuestionMark sc.selectedVars).map
      (fun v => Chunk.str ("\n  <variable name=\"" ++ v ++ "\"/>")) ++
    [Chunk.str "\n</head>", Chunk.str "\n<results>"]
  let body := runRows h (fun r => xmlRow input cols r) (getRowIndices lo n) 0
  match body.err with
  | some e => { chunks := pre ++ body.chunks, err := some e,
                polls := body.polls }
  | none =>
      { chunks := pre ++ body.chunks ++
          [Chunk.str "\n</results>", Chunk.str "\n</sparql>"],
        polls := body.polls }

/-- The binding object of one SPARQL-JSON row: unresolvable columns are
skipped (`continue`), every resolvable column contributes its key and
`stringAndTypeToBinding` object (whose contract aborts propagate). -/
def bindingOfRow (input : ExportInput) (r : Nat) :
    List (String × Nat) →
    Except ExpError (List (String × List (String × String)))
  | [] => .ok []
  | c :: rest =>
      match idToStringAndType input (tableAt input r c.2) with
      | none => bindingOfRow input r rest
      | some (sv, xt) =>
          match stringAndTypeToBinding sv xt with
          | none => .error .assertion
          | some b =>
              (bindingOfRow input r rest).map (fun bs => (c.1, b) :: bs)

/-- `selectQueryResultToStream<sparqlJson>`: head chunk; an empty column
list short-circuits to the closing chunk with no row loop at all;
otherwise one `jsonRow` chunk per row (with a leading comma unless the
row *index* is 0) and a poll after each row. -/
def selectQueryResultToStreamJson (input : ExportInput) (sc : SelectCtx)
    (lo : LimitOffsetClause) (h : Option Nat) : GenOut :=
  let n := input.idTable.length
  let vars := varsWithoutQuestionMark sc.selectedVars
  let head : Chunk :=
    Chunk.str ("\x7b\"head\":\x7b\"vars\":[" ++
      joinWith "," (vars.map (fun v => "\"" ++ v ++ "\"")) ++
      "]\x7d,\"results\":\x7b\"bindings\":[")
  let columns := (selectedVariablesToColumnIndices sc.varColMap
    sc.selectedVars false).filterMap (fun oc => oc)
  if columns.length = 0 then
    { chunks := [head, Chunk.str "]\x7d\x7d"] }
  else
    let body := runRows h
      (fun r =>
        match bindingOfRow input r columns with
        | .error e => ([], some e)
        | .ok b => ([Chunk.jsonRow (decide (r ≠ 0)) b], none))
      (getRowIndices lo n) 0
    match body.err with
    | some e =>
        { chunks := head :: body.chunks, err := some e, polls := body.polls }
    | none =>
        { chunks := head :: body.chunks ++ [Chunk.str "]\x7d\x7d"],
          polls := body.polls }

/-- The buffered `selectQueryResultToSparqlJSON` result: the head
variable list and the binding objects of all exported rows. -/
structure SparqlJsonResult where
  vars : List String := []
  bindings : List (List (String × List (String × String))) := []
deriving DecidableEq, Inhabited, Repr

/-- Row loop of the buffered SPARQL-JSON export: build each row's
binding object, append it, then poll. -/
def jsonRowsGo (input : ExportInput) (cols : List (String × Nat))
    (h : Option Nat) :
    List Nat → Nat →
    Except ExpError
      (List (List (String × List (String × String)))) × Nat
  | [], _ => (.ok [], 0)
  | r :: rest, poll =>
      match bindingOfRow input r cols with
      | .error e => (.error e, 0)
      | .ok b =>
          if cancelledAt h poll then (.error (.cancellation ""), 1)
          else
            let g := jsonRowsGo input cols h rest (poll + 1)
            (g.1.map (fun bs => b :: bs), g.2 + 1)

/-- Strip the leading question mark only when present (the buffered
JSON head does an explicit `starts_with('?')` check). -/
def stripQuestionMark (v : String) : String :=
  if startsWithChar v '?' then strDrop v 1 else v

/-- `selectQueryResultToSparqlJSON` (the buffered variant): unbound
selected variables are erased from the column list; with no bound
column the binding list is empty and no row is visited. -/
def selectQueryResultToSparqlJSON (input : ExportInput) (sc : SelectCtx)
    (lo : LimitOffsetClause) (h : Option Nat) :
    Except ExpError SparqlJsonResult × Nat :=
  let n := input.idTable.length
  let columns := (selectedVariablesToColumnIndices sc.varColMap
    sc.selectedVars false).filterMap (fun oc => oc)
  let vars := sc.selectedVars.map stripQuestionMark
  if columns.length = 0 then (.ok { vars := vars }, 0)
  else
    let g := jsonRowsGo input columns h (getRowIndices lo n) 0
    (g.1.map (fun bs => { vars := vars, bindings := bs }), g.2)

/-- `idTableToQLeverJSONRow`: one array entry per selected column —
`null` for an unbound column or an unresolvable identifier, the
`"<lexical>"^^<<type>>` concatenation for a typed value, the plain
string otherwise. -/
def idTableToQLeverJSONRow (input : ExportInput)
    (cols : List (Option (String × Nat))) (r : Nat) :
    List (Option String) :=
  cols.map
    (fun oc =>
      match oc with
      | none => none
      | some vc =>
          match idToStringAndType input (tableAt input r vc.2) with
          | none => none
          | some (sv, some t) => some ("\"" ++ sv ++ "\"^^<" ++ t ++ ">")
          | some (sv, none) => some sv)

/-- `idTableToQLeverJSONArray` (buffered): all rows, with a poll after
each appended row. -/
def idTableToQLeverJSONArray (input : ExportInput)
    (cols : List (Option (String × Nat))) (h : Option Nat) :
    List Nat → Nat → Except ExpError (List (List (Option String))) × Nat
  | [], _ => (.ok [], 0)
  | r :: rest, poll =>
      let row := idTableToQLeverJSONRow input cols r
      if cancelledAt h poll then (.error (.cancellation ""), 1)
      else
        let g := idTableToQLeverJSONArray input cols h rest (poll + 1)
        (g.1.map (fun rs => row :: rs), g.2 + 1)

/-- `idTableToQLeverJSONBindingsStream`: the same loop as a stream of
`qleverRow` chunks. -/
def idTableToQLeverJSONBindingsStream (input : ExportInput)
    (cols : List (Option (String × Nat))) (lo : LimitOffsetClause)
    (h : Option Nat) : GenOut :=
  runRows h
    (fun r => ([Chunk.qleverRow (idTableToQLeverJSONRow input cols r)], none))
    (getRowIndices lo input.idTable.length) 0

/-! CONSTRUCT export paths. -/

/-- One CONSTRUCT template triple; each component carries its external
`evaluate(context, position)` operation, modelled as a function of the
row index. -/
structure ConstructTriple where
  s : Nat → Option String
  p : Nat → Option String
  o : Nat → Option String

/-- Inner loop of `constructQueryResultToTriples` over the template list
of one row: a triple with any unbound component is skipped (without a
poll); each yielded triple is followed by a poll. -/
def constructTriplesInner (h : Option Nat) (r : Nat) :
    List ConstructTriple → Nat →
    List (String × String × String) × Option ExpError × Nat
  | [], _ => ([], none, 0)
  | t :: ts, poll =>
      match t.s r, t.p r, t.o r with
      | some sv, some pv, some ov =>
          if cancelledAt h poll then
            ([(sv, pv, ov)], some (.cancellation ""), 1)
          else
            let g := constructTriplesInner h r ts (poll + 1)
            ((sv, pv, ov) :: g.1, g.2.1, g.2.2 + 1)
      | _, _, _ => constructTriplesInner h r ts poll

/-- Outer loop of `constructQueryResultToTriples` over the exported row
indices. -/
def constructTriplesGo (h : Option Nat)
    (templates : List ConstructTriple) :
    List Nat → Nat → List (String × String × String) × Option ExpError × Nat
  | [], _ => ([], none, 0)
  | r :: rest, poll =>
      let g := constructTriplesInner h r templates poll
      match g.2.1 with
      | some e => (g.1, some e, g.2.2)
      | none =>
          let g2 := constructTriplesGo h templates rest (poll + g.2.2)
          (g.1 ++ g2.1, g2.2.1, g.2.2 + g2.2.2)

/-- `constructQueryResultToTriples`: the triples generated over the
computed row range. -/
def constructQueryResultToTriples (input : ExportInput)
    (templates : List ConstructTriple) (lo : LimitOffsetClause)
    (h : Option Nat) :
    List (String × String × String) × Option ExpError × Nat :=
  constructTriplesGo h templates (getRowIndices lo input.idTable.length) 0

/-- `constructQueryResultToStream<turtle>`: subject, predicate and
object separated by blanks, the object passed through the
normalised-RDF-literal formatter when it starts with a quote, each
triple terminated by ` .\n`. -/
def constructQueryResultToStreamTurtle (input : ExportInput)
    (templates : List ConstructTriple) (lo : LimitOffsetClause)
    (h : Option Nat) : GenOut :=
  let g := constructQueryResultToTriples input templates lo h
  { chunks :=
      (g.1.map
        (fun t =>
          [Chunk.str t.1, Chunk.str " ", Chunk.str t.2.1, Chunk.str " ",
           Chunk.str
             (if startsWithChar t.2.2 '"' then
               input.rdfLiteralFromNormalized t.2.2
             else t.2.2),
           Chunk.str " .\n"])).flatten,
    err := g.2.1, polls := g.2.2 }

/-- `constructQueryResultToStream` for the templated formats: binary and
XML throw a refusal; CSV, TSV *and SPARQL-JSON* all fall through to the
escaped separated-values loop (TSV with tabs, the others — including
`sparqlJson` — with commas and CSV escaping). -/
def constructQueryResultToStream (fmt : MediaType) (input : ExportInput)
    (templates : List ConstructTriple) (lo : LimitOffsetClause)
    (h : Option Nat) : GenOut :=
  if fmt = .octetStream then
    { err := some (.refusal "Binary export is not supported for CONSTRUCT queries") }
  else if fmt = .sparqlXml then
    { err := some (.refusal "XML export is currently not supported for CONSTRUCT queries") }
  else
    let escape := if fmt = .tsv then input.escapeTsv else input.escapeCsv
    let sep := if fmt = .tsv then "\t" else ","
    let g := constructQueryResultToTriples input templates lo h
    { chunks :=
        (g.1.map
          (fun t =>
            [Chunk.str (escape t.1), Chunk.str sep,
             Chunk.str (escape t.2.1), Chunk.str sep,
             Chunk.str (escape t.2.2), Chunk.str "\n"])).flatten,
      err := g.2.1, polls := g.2.2 }

/-! The dispatching wrappers. -/

/-- The parts of the parsed query the exporter reads. -/
structure ParsedQueryExp where
  hasSelectClause : Bool := true
  select : SelectCtx := {}
  constructTriples : List ConstructTriple := []
  limitOffset : LimitOffsetClause := {}

/-- Retag a cancellation error (`e.setOperation(...)` in the catch
block); other errors pass through unchanged. -/
def tagCancellation (tag : String) (e : ExpError) : ExpError :=
  match e with
  | .cancellation _ => .cancellation tag
  | other => other

/-- `computeResultAsStream`: dispatch on the media type and the query
kind, then tag any escaping cancellation with "Stream query export". -/
def computeResultAsStream (input : ExportInput) (q : ParsedQueryExp)
    (fmt : MediaType) (h : Option Nat) : GenOut :=
  let inner :=
    if q.hasSelectClause then
      match fmt with
      | .sparqlXml => selectQueryResultToStreamXml input q.select
          q.limitOffset h
      | .sparqlJson => selectQueryResultToStreamJson input q.select
          q.limitOffset h
      | .qleverJson => { err := some ExpError.assertion }
      | other => selectQueryResultToStream other input q.select
          q.limitOffset h
    else
      match fmt with
      | .turtle => constructQueryResultToStreamTurtle input
          q.constructTriples q.limitOffset h
      | .qleverJson => { err := some ExpError.assertion }
      | other => constructQueryResultToStream other input
          q.constructTriples q.limitOffset h
  { inner with err := inner.err.map (tagCancellation "Stream query export") }

/-- `computeSelectQueryResultAsSparqlJSON`: refuse for CONSTRUCT
queries, otherwise the buffered SPARQL-JSON export. -/
def computeSelectQueryResultAsSparqlJSON (input : ExportInput)
    (q : ParsedQueryExp) (h : Option Nat) :
    Except ExpError SparqlJsonResult × Nat :=
  if ¬ (q.hasSelectClause = true) then
    (.error (.refusal
      "SPARQL-compliant JSON format is only supported for SELECT queries"),
     0)
  else selectQueryResultToSparqlJSON input q.select q.limitOffset h

/-- The pieces of the QLever-JSON document the model tracks (the query
echo, warnings, runtime statistics and timings are opaque external
values). -/
structure QLeverJsonResult where
  selected : List String := []
  res : List (List (Option String)) := []
  resultsize : Nat := 0
deriving DecidableEq, Inhabited, Repr

/-- `computeQueryResultAsQLeverJSON`: the `res` array from the select
or construct bindings, and `resultsize` — the full table size for a
SELECT query, the number of generated triples for CONSTRUCT. -/
def computeQueryResultAsQLeverJSON (input : ExportInput)
    (q : ParsedQueryExp) (h : Option Nat) :
    Except ExpError QLeverJsonResult × Nat :=
  let n := input.idTable.length
  if q.hasSelectClause then
    let cols := selectedVariablesToColumnIndices q.select.varColMap
      q.select.selectedVars true
    let g := idTableToQLeverJSONArray input cols h
      (getRowIndices q.limitOffset n) 0
    (g.1.map
      (fun rs =>
        { selected := q.select.selectedVars, res := rs, resultsize := n }),
     g.2)
  else
    let g := constructQueryResultToTriples input q.constructTriples
      q.limitOffset h
    match g.2.1 with
    | some e => (.error e, g.2.2)
    | none =>
        let rows := g.1.map (fun t => [some t.1, some t.2.1, some t.2.2])
        (.ok { selected := ["?subject", "?predicate", "?object"],
               res := rows, resultsize := rows.length },
         g.2.2)

/-- The two document shapes `computeResultAsJSON` can produce. -/
inductive JsonResult where
  | qlever (r : QLeverJsonResult)
  | sparql (r : SparqlJsonResult)
deriving DecidableEq, Inhabited, Repr

/-- `computeResultAsJSON`: dispatch to the QLever-JSON or SPARQL-JSON
builder (anything else is `AD_FAIL`), tagging any escaping cancellation
with "Query export". -/
def computeResultAsJSON (input : ExportInput) (q : ParsedQueryExp)
    (fmt : MediaType) (h : Option Nat) :
    Except ExpError JsonResult × Nat :=
  let g : Except ExpError JsonResult × Nat :=
    match fmt with
    | .qleverJson =>
        let g := computeQueryResultAsQLeverJSON input q h
        (g.1.map JsonResult.qlever, g.2)
    | .sparqlJson =>
        let g := computeSelectQueryResultAsSparqlJSON input q h
        (g.1.map JsonResult.sparql, g.2)
    | _ => (.error .assertion, 0)
  (g.1.mapError (tagCancellation "Query export"), g.2)

/-! Generic facts about the streaming row loop and the row range. -/

/-- With an unset cancellation handle and a renderer that never aborts,
the row loop yields each row's chunks in order, finishes cleanly, and
polls exactly once per row. -/
theorem runRows_total (render : Nat → List Chunk × Option ExpError)
    (hr : ∀ r, (render r).2 = none) :
    ∀ (rows : List Nat) (poll : Nat),
      runRows none render rows poll =
        { chunks := (rows.map (fun r => (render r).1)).flatten,
          err := none, polls := rows.length } := by
  intro rows
  induction rows with
  | nil => intro poll; rfl
  | cons r rest ih =>
      intro poll
      unfold runRows
      dsimp only
      rw [hr r]
      have hcan : cancelledAt none poll = false := rfl
      rw [hcan]
      dsimp only
      rw [ih (poll + 1)]
      simp

/-- The exported row count is `min(limit, n - offset)` (natural-number
subtraction already truncates at zero). -/
theorem getRowIndices_length (lo : LimitOffsetClause) (n : Nat) :
    (getRowIndices lo n).length = min (lo.limit.getD n) (n - lo.offset) := by
  unfold getRowIndices actualOffset upperBound
  rw [List.length_range']
  cases lo.limit with
  | none => dsimp only [Option.getD]; omega
  | some l => dsimp only [Option.getD]; omega

/-- The exported row indices are exactly the half-open interval
`[actualOffset(n), upperBound(n))`. -/
theorem mem_getRowIndices (lo : LimitOffsetClause) (n : Nat) (i : Nat) :
    i ∈ getRowIndices lo n ↔
      actualOffset lo n ≤ i ∧ i < upperBound lo n := by
  have hle : actualOffset lo n ≤ upperBound lo n := by
    unfold actualOffset upperBound
    cases lo.limit with
    | none => dsimp only; omega
    | some l => dsimp only; omega
  unfold getRowIndices
  rw [List.mem_range'_1]
  omega

/-- A cancellation escaping through `Option.map (tagCancellation tag)`
carries exactly that tag. -/
theorem tagCancellation_map_err (tag : String) (o : Option ExpError)
    (e : String) :
    o.map (tagCancellation tag) = some (ExpError.cancellation e) →
    e = tag := by
  intro hmem
  cases o with
  | none => exact Option.noConfusion hmem
  | some e0 =>
      cases e0 with
      | cancellation t =>
          simp only [Option.map, tagCancellation] at hmem
          injection hmem with hmem
          exact (ExpError.cancellation.injEq _ _ ▸ hmem).symm
      | refusal m =>
          simp only [Option.map, tagCancellation] at hmem
          injection hmem with hmem
          exact absurd hmem (by simp)
      | assertion =>
          simp only [Option.map, tagCancellation] at hmem
          injection hmem with hmem
          exact absurd hmem (by simp)

/-- A cancellation escaping through
`Except.mapError (tagCancellation tag)` carries exactly that tag. -/
theorem tagCancellation_mapError_err {α : Type} (tag : String)
    (x : Except ExpError α) (e : String) :
    x.mapError (tagCancellation tag) =
      Except.error (ExpError.cancellation e) →
    e = tag := by
  intro hmem
  cases x with
  | ok v => exact Except.noConfusion hmem
  | error e0 =>
      cases e0 with
      | cancellation t =>
          simp only [Except.mapError, tagCancellation] at hmem
          injection hmem with hmem
          exact (ExpError.cancellation.injEq _ _ ▸ hmem).symm
      | refusal m =>
          simp only [Except.mapError, tagCancellation] at hmem
          injection hmem with hmem
          exact absurd hmem (by simp)
      | assertion =>
          simp only [Except.mapError, tagCancellation] at hmem
          injection hmem with hmem
          exact absurd hmem (by simp)

/-- The CONSTRUCT inner loop polls exactly once per yielded triple —
a template triple with an unbound component contributes neither a
triple nor a poll. -/
theorem constructTriplesInner_polls (h : Option Nat) (r : Nat) :
    ∀ (ts : List ConstructTriple) (poll : Nat),
      (constructTriplesInner h r ts poll).2.2 =
        (constructTriplesInner h r ts poll).1.length := by
  intro ts
  induction ts with
  | nil => intro poll; rfl
  | cons t rest ih =>
      intro poll
      unfold constructTriplesInner
      cases hs : t.s r with
      | none => exact ih poll
      | some sv =>
          cases hp : t.p r with
          | none => exact ih poll
          | some pv =>
              cases ho : t.o r with
              | none => exact ih poll
              | some ov =>
                  dsimp only
                  by_cases hc : cancelledAt h poll = true
                  · rw [if_pos hc]
                    rfl
                  · rw [if_neg hc]
                    dsimp only [List.length_cons]
                    rw [ih (poll + 1)]

/-- The CONSTRUCT outer loop polls exactly once per yielded triple,
whatever the row count. -/
theorem constructTriplesGo_polls (h : Option Nat)
    (templates : List ConstructTriple) :
    ∀ (rows : List Nat) (poll : Nat),
      (constructTriplesGo h templates rows poll).2.2 =
        (constructTriplesGo h templates rows poll).1.length := by
  intro rows
  induction rows with
  | nil => intro poll; rfl
  | cons r rest ih =>
      intro poll
      unfold constructTriplesGo
      dsimp only
      cases he : (constructTriplesInner h r templates poll).2.1 with
      | some e =>
          dsimp only
          exact constructTriplesInner_polls h r templates poll
      | none =>
          dsimp only
          rw [List.length_append, constructTriplesInner_polls h r templates
            poll, ih (poll + (constructTriplesInner h r templates poll).1.length)]

/-- A renderer yielding exactly one chunk per row flattens to one chunk
per row. -/
theorem flatten_map_singleton {α β : Type} (f : α → β) :
    ∀ l : List α, (l.map (fun a => [f a])).flatten = l.map f := by
  intro l
  induction l with
  | nil => rfl
  | cons a rest ih => simp only [List.map_cons, List.flatten_cons, ih]; rfl

/-- The keys of a SPARQL-JSON binding object are exactly the selected
columns whose identifier resolves, in column order. -/
theorem bindingOfRow_keys (input : ExportInput) (r : Nat) :
    ∀ (cols : List (String × Nat))
      (bs : List (String × List (String × String))),
      bindingOfRow input r cols = Except.ok bs →
      bs.map Prod.fst =
        (cols.filter (fun c =>
          (idToStringAndType input (tableAt input r c.2)).isSome)).map
          Prod.fst := by
  intro cols
  induction cols with
  | nil =>
      intro bs hb
      injection hb with hb
      rw [← hb]
      rfl
  | cons c rest ih =>
      intro bs hb
      unfold bindingOfRow at hb
      cases hres : idToStringAndType input (tableAt input r c.2) with
      | none =>
          rw [hres] at hb
          rw [List.filter_cons_of_neg (by simp [hres])]
          exact ih bs hb
      | some sx =>
          rw [hres] at hb
          dsimp only at hb
          cases hbind : stringAndTypeToBinding sx.1 sx.2 with
          | none => rw [hbind] at hb; exact Except.noConfusion hb
          | some b =>
              rw [hbind] at hb
              cases hrest : bindingOfRow input r rest with
              | error e =>
                  rw [hrest] at hb
                  exact Except.noConfusion hb
              | ok bs0 =>
                  rw [hrest] at hb
                  injection hb with hb
                  rw [← hb]
                  rw [List.filter_cons_of_pos (by simp [hres])]
                  simp only [List.map_cons]
                  rw [ih bs0 hrest]

/-- A row all of whose selected columns fail to resolve still yields a
binding object — the empty one — and no error. -/
theorem bindingOfRow_allNone (input : ExportInput) (r : Nat) :
    ∀ cols : List (String × Nat),
      (∀ c ∈ cols, idToStringAndType input (tableAt input r c.2) = none) →
      bindingOfRow input r cols = Except.ok [] := by
  intro cols
  induction cols with
  | nil => intro _; rfl
  | cons c rest ih =>
      intro hall
      unfold bindingOfRow
      rw [hall c (by simp)]
      exact ih (fun c hc => hall c (List.mem_cons_of_mem _ hc))

/-- The buffered SPARQL-JSON row loop, run to completion, produces
exactly one binding object per exported row. -/
theorem jsonRowsGo_ok_length (input : ExportInput)
    (cols : List (String × Nat)) :
    ∀ (rows : List Nat) (poll : Nat)
      (bs : List (List (String × List (String × String)))) (p : Nat),
      jsonRowsGo input cols none rows poll = (Except.ok bs, p) →
      bs.length = rows.length := by
  intro rows
  induction rows with
  | nil =>
      intro poll bs p hg
      unfold jsonRowsGo at hg
      injection hg with hg1 hg2
      injection hg1 with hg1
      rw [← hg1]
      rfl
  | cons r rest ih =>
      intro poll bs p hg
      unfold jsonRowsGo at hg
      cases hb : bindingOfRow input r cols with
      | error e =>
          rw [hb] at hg
          dsimp only at hg
          injection hg with hg1 hg2
          exact Except.noConfusion hg1
      | ok b =>
          rw [hb] at hg
          dsimp only at hg
          have hcan : cancelledAt none poll = false := rfl
          rw [hcan] at hg
          simp only [Bool.false_eq_true, if_false] at hg
          cases hrec : (jsonRowsGo input cols none rest (poll + 1)).1 with
          | error e =>
              rw [hrec] at hg
              injection hg with hg1 hg2
              exact Except.noConfusion hg1
          | ok bs0 =>
              rw [hrec] at hg
              injection hg with hg1 hg2
              injection hg1 with hg1
              rw [← hg1]
              simp only [List.length_cons]
              rw [ih (poll + 1) bs0
                (jsonRowsGo input cols none rest (poll + 1)).2 ?_]
              rw [← hrec]

/-- Input for the claim C3 counterexample: a two-row result table. -/
def c3in : ExportInput := { idTable := [[Id.intId 1], [Id.intId 2]] }

/-- Select context for the claim C3 counterexample: the only selected
variable is absent from the tree's variable map, so it is unbound. -/
def c3sc : SelectCtx := { selectedVars := ["?x"], varColMap := [] }

/-- Claim C3, counterexample: with two rows and no LIMIT/OFFSET the
exported row range is `[0, 2)`, yet the streaming SPARQL-JSON export of
a query whose selected variables are all unbound short-circuits after
the head — it emits no row and performs no poll — and the buffered
SPARQL-JSON export likewise returns an empty binding list.  Rows 0 and
1 lie in the range but are never emitted, so "every export format emits
exactly the rows with indices in [actualOffset(n), upperBound(n))"
fails for the SPARQL-JSON formats. -/
theorem claimC3_counterexample :
    getRowIndices {} c3in.idTable.length = [0, 1] ∧
    selectQueryResultToStreamJson c3in c3sc {} none =
      { chunks := [Chunk.str
          "\x7b\"head\":\x7b\"vars\":[\"x\"]\x7d,\"results\":\x7b\"bindings\":[",
          Chunk.str "]\x7d\x7d"],
        err := none, polls := 0 } ∧
    selectQueryResultToSparqlJSON c3in c3sc {} none =
      (Except.ok { vars := ["x"], bindings := [] }, 0) :=
  ⟨rfl, rfl, rfl⟩

/-- Claim C3 (amended): the exported row range is exactly the half-open
interval `[actualOffset(n), upperBound(n))`, whose size is
`min(limit, n - offset)` (natural subtraction truncates at zero); the
CSV, TSV and binary streaming exports emit exactly the rows with these
indices, in table order, with one cancellation poll per row.  The claim
fails for the SPARQL-JSON exports, which visit no row at all when every
selected variable is unbound (see the counterexample). -/
theorem claimC3_theorem (lo : LimitOffsetClause) (n : Nat) :
    (getRowIndices lo n).length = min (lo.limit.getD n) (n - lo.offset) ∧
    (∀ i, i ∈ getRowIndices lo n ↔
        actualOffset lo n ≤ i ∧ i < upperBound lo n) ∧
    (∀ (input : ExportInput) (sc : SelectCtx),
      selectQueryResultToStream .csv input sc lo none =
        { chunks := [Chunk.str (joinWith ","
              (varsWithoutQuestionMark sc.selectedVars)), Chunk.str "\n"] ++
            ((getRowIndices lo input.idTable.length).map
              (csvTsvRow true input (selectedVariablesToColumnIndices
                sc.varColMap sc.selectedVars true))).flatten,
          err := none,
          polls := (getRowIndices lo input.idTable.length).length }) ∧
    (∀ (input : ExportInput) (sc : SelectCtx),
      selectQueryResultToStream .tsv input sc lo none =
        { chunks := [Chunk.str (joinWith "\t" sc.selectedVars),
            Chunk.str "\n"] ++
            ((getRowIndices lo input.idTable.length).map
              (csvTsvRow false input (selectedVariablesToColumnIndices
                sc.varColMap sc.selectedVars true))).flatten,
          err := none,
          polls := (getRowIndices lo input.idTable.length).length }) ∧
    (∀ (input : ExportInput) (sc : SelectCtx),
      selectQueryResultToStream .octetStream input sc lo none =
        { chunks := ((getRowIndices lo input.idTable.length).map
            (fun r => (selectedVariablesToColumnIndices sc.varColMap
              sc.selectedVars true).filterMap
              (fun oc => oc.map (fun vc =>
                Chunk.idBytes (tableAt input r vc.2))))).flatten,
          err := none,
          polls := (getRowIndices lo input.idTable.length).length }) := by
  refine ⟨getRowIndices_length lo n, mem_getRowIndices lo n, ?_, ?_, ?_⟩
  · intro input sc
    unfold selectQueryResultToStream
    simp only [eq_false (by decide : ¬(MediaType.csv = MediaType.turtle)),
      eq_false (by decide : ¬(MediaType.csv = MediaType.octetStream)),
      eq_self_iff_true, if_false, if_true, decide_True]
    rw [runRows_total _ (fun r => rfl) (getRowIndices lo
      input.idTable.length) 0]
  · intro input sc
    unfold selectQueryResultToStream
    simp only [eq_false (by decide : ¬(MediaType.tsv = MediaType.turtle)),
      eq_false (by decide : ¬(MediaType.tsv = MediaType.octetStream)),
      eq_false (by decide : ¬(MediaType.tsv = MediaType.csv)),
      if_false, decide_False]
    rw [runRows_total _ (fun r => rfl) (getRowIndices lo
      input.idTable.length) 0]
  · intro input sc
    unfold selectQueryResultToStream
    simp only [eq_false
        (by decide : ¬(MediaType.octetStream = MediaType.turtle)),
      eq_self_iff_true, if_false, if_true]
    rw [runRows_total _ (fun r => rfl) (getRowIndices lo
      input.idTable.length) 0]

/-- Input for the claim C4 counterexample: a single-row table. -/
def c4in : ExportInput := { idTable := [[]] }

/-- Template triple for the claim C4 counterexample: every component
evaluates to a bound value on every row. -/
def c4t : ConstructTriple :=
  { s := fun _ => some "<s>", p := fun _ => some "<p>",
    o := fun _ => some "<o>" }

/-- The CONSTRUCT query of the claim C4 counterexample. -/
def c4q : ParsedQueryExp :=
  { hasSelectClause := false, constructTriples := [c4t] }

/-- Claim C4, counterexample: a CONSTRUCT query streamed as SPARQL-JSON
does not fail with a refusal — `constructQueryResultToStream` has no
case for `sparqlJson`, so the request falls through to the
separated-values branch and the exporter emits comma-separated result
output with no error at all. -/
theorem claimC4_counterexample :
    computeResultAsStream c4in c4q MediaType.sparqlJson none =
      { chunks := [Chunk.str "<s>", Chunk.str ",", Chunk.str "<p>",
          Chunk.str ",", Chunk.str "<o>", Chunk.str "\n"],
        err := none, polls := 1 } :=
  rfl

/-- Claim C4 (amended): for a CONSTRUCT query the binary octet-stream
and SPARQL-XML formats do refuse with dedicated messages, and the
*buffered* SPARQL-JSON endpoint (`computeSelectQueryResultAsSparqlJSON`)
refuses as well; but the *streaming* SPARQL-JSON export does not fail —
it behaves exactly like the CSV export (comma separators and CSV
escaping). -/
theorem claimC4_theorem (input : ExportInput)
    (templates : List ConstructTriple) (lo : LimitOffsetClause)
    (h : Option Nat) (q : ParsedQueryExp) :
    constructQueryResultToStream MediaType.octetStream input templates
        lo h =
      { err := some (ExpError.refusal
          "Binary export is not supported for CONSTRUCT queries") } ∧
    constructQueryResultToStream MediaType.sparqlXml input templates
        lo h =
      { err := some (ExpError.refusal
          "XML export is currently not supported for CONSTRUCT queries") } ∧
    (q.hasSelectClause = false →
      computeSelectQueryResultAsSparqlJSON input q h =
        (Except.error (ExpError.refusal
          "SPARQL-compliant JSON format is only supported for SELECT queries"),
         0)) ∧
    constructQueryResultToStream MediaType.sparqlJson input templates
        lo h =
      constructQueryResultToStream MediaType.csv input templates lo h := by
  refine ⟨rfl, rfl, fun hsel => ?_, rfl⟩
  unfold computeSelectQueryResultAsSparqlJSON
  rw [hsel]
  rfl

/-- Witness for claim C4 at the concrete CONSTRUCT query of the
counterexample: the buffered SPARQL-JSON endpoint refuses it. -/
theorem claimC4_witness :
    computeSelectQueryResultAsSparqlJSON c4in c4q none =
      (Except.error (ExpError.refusal
        "SPARQL-compliant JSON format is only supported for SELECT queries"),
       0) :=
  (claimC4_theorem c4in c4q.constructTriples {} none c4q).2.2.1 rfl

/-- Template triple for the claim C5 counterexample: the subject never
evaluates to a bound value, so no triple is ever yielded. -/
def c5t : ConstructTriple :=
  { s := fun _ => none, p := fun _ => some "<p>",
    o := fun _ => some "<o>" }

/-- Input for the claim C5 counterexample: a two-row table. -/
def c5cin : ExportInput := { idTable := [[], []] }

/-- The CONSTRUCT query of the claim C5 counterexample. -/
def c5cq : ParsedQueryExp :=
  { hasSelectClause := false, constructTriples := [c5t] }

/-- Claim C5, counterexample: the CONSTRUCT export polls the
cancellation handle only after each *yielded triple*, not at row
boundaries.  Here the handle is set from the very first poll
(`some 0`), two rows are exported, yet — because the template's subject
is unbound on every row — the export runs to completion with no error
and zero polls: the set handle is never observed at any row boundary. -/
theorem claimC5_counterexample :
    computeResultAsStream c5cin c5cq MediaType.turtle (some 0) =
      { chunks := [], err := none, polls := 0 } ∧
    getRowIndices {} c5cin.idTable.length = [0, 1] :=
  ⟨rfl, rfl⟩

/-- Claim C5 (amended): a cancellation escaping any streaming export is
tagged "Stream query export" and one escaping the JSON (non-stream)
export paths is tagged "Query export", and the select streaming loops
poll once per exported row; but the CONSTRUCT exports poll once per
*yielded triple* — a row yielding no triple (unbound template
component) passes without any poll (see the counterexample), so "the
cancellation handle is polled at every row boundary in every format"
fails. -/
theorem claimC5_theorem :
    (∀ (input : ExportInput) (q : ParsedQueryExp) (fmt : MediaType)
       (h : Option Nat) (e : String),
      (computeResultAsStream input q fmt h).err =
        some (ExpError.cancellation e) →
      e = "Stream query export") ∧
    (∀ (input : ExportInput) (q : ParsedQueryExp) (fmt : MediaType)
       (h : Option Nat) (e : String),
      (computeResultAsJSON input q fmt h).1 =
        Except.error (ExpError.cancellation e) →
      e = "Query export") ∧
    (∀ (input : ExportInput) (templates : List ConstructTriple)
       (lo : LimitOffsetClause) (h : Option Nat),
      (constructQueryResultToTriples input templates lo h).2.2 =
        (constructQueryResultToTriples input templates lo h).1.length) ∧
    (∀ (input : ExportInput) (sc : SelectCtx) (lo : LimitOffsetClause),
      (selectQueryResultToStream MediaType.csv input sc lo none).polls =
        (getRowIndices lo input.idTable.length).length) := by
  refine ⟨?_, ?_, ?_, ?_⟩
  · intro input q fmt h e hmem
    unfold computeResultAsStream at hmem
    dsimp only at hmem
    exact tagCancellation_map_err _ _ _ hmem
  · intro input q fmt h e hmem
    unfold computeResultAsJSON at hmem
    dsimp only at hmem
    exact tagCancellation_mapError_err _ _ _ hmem
  · intro input templates lo h
    unfold constructQueryResultToTriples
    exact constructTriplesGo_polls h templates _ 0
  · intro input sc lo
    unfold selectQueryResultToStream
    simp only [eq_false (by decide : ¬(MediaType.csv = MediaType.turtle)),
      eq_false (by decide : ¬(MediaType.csv = MediaType.octetStream)),
      eq_self_iff_true, if_false, if_true, decide_True]
    rw [runRows_total _ (fun r => rfl) (getRowIndices lo
      input.idTable.length) 0]

/-- Input for the claim C5 witness: a one-row, one-column table. -/
def c5win : ExportInput := { idTable := [[Id.intId 1]] }

/-- The SELECT query of the claim C5 witness. -/
def c5wq : ParsedQueryExp :=
  { select := { selectedVars := ["?x"], varColMap := [("?x", 0)] } }

/-- The tag of the cancellation the streaming CSV export raises when
the handle is set from the first poll. -/
def c5streamTag : String :=
  match (computeResultAsStream c5win c5wq MediaType.csv (some 0)).err with
  | some (ExpError.cancellation t) => t
  | _ => "?"

/-- The tag of the cancellation the buffered SPARQL-JSON export raises
when the handle is set from the first poll. -/
def c5jsonTag : String :=
  match (computeResultAsJSON c5win c5wq MediaType.sparqlJson (some 0)).1 with
  | Except.error (ExpError.cancellation t) => t
  | _ => "?"

/-- Witness for claim C5 at concrete exports: a cancelled streaming CSV
export carries the "Stream query export" tag, a cancelled buffered
SPARQL-JSON export the "Query export" tag, the counterexample CONSTRUCT
export polls once per yielded triple, and the one-row CSV export polls
once. -/
theorem claimC5_witness :
    c5streamTag = "Stream query export" ∧
    c5jsonTag = "Query export" ∧
    (constructQueryResultToTriples c5cin [c5t] {} none).2.2 =
      (constructQueryResultToTriples c5cin [c5t] {} none).1.length ∧
    (selectQueryResultToStream MediaType.csv c5win c5wq.select {}
        none).polls =
      (getRowIndices {} c5win.idTable.length).length :=
  ⟨claimC5_theorem.1 c5win c5wq MediaType.csv (some 0) c5streamTag rfl,
   claimC5_theorem.2.1 c5win c5wq MediaType.sparqlJson (some 0) c5jsonTag
     rfl,
   claimC5_theorem.2.2.1 c5cin [c5t] {} none,
   claimC5_theorem.2.2.2 c5win c5wq.select {}⟩

/-- The row loop under a renderer that yields one known chunk list per
exported row and never aborts. -/
theorem runRows_congr_total (render : Nat → List Chunk × Option ExpError)
    (g : Nat → List Chunk) :
    ∀ rows : List Nat, (∀ r ∈ rows, render r = (g r, none)) →
    ∀ poll : Nat,
      runRows none render rows poll =
        { chunks := (rows.map g).flatten, err := none,
          polls := rows.length } := by
  intro rows
  induction rows with
  | nil => intro _ poll; rfl
  | cons r rest ih =>
      intro hr poll
      unfold runRows
      dsimp only
      rw [hr r (by simp)]
      dsimp only
      have hcan : cancelledAt none poll = false := rfl
      rw [hcan]
      rw [ih (fun x hx => hr x (List.mem_cons_of_mem _ hx)) (poll + 1)]
      simp

/-- Claim C10: in SPARQL-JSON output a selected column whose identifier
resolves to `none` contributes no key to the row's binding object — the
keys are exactly the resolvable columns — while the binding object
itself is still produced (the empty one when nothing resolves); the
buffered loop yields exactly one binding object per exported row, and
the streaming variant, on a table where no selected column of any
exported row resolves, still emits one (empty) binding-object chunk per
row and finishes without error. -/
theorem claimC10_theorem :
    (∀ (input : ExportInput) (r : Nat) (cols : List (String × Nat))
       (bs : List (String × List (String × String))),
      bindingOfRow input r cols = Except.ok bs →
      bs.map Prod.fst =
        (cols.filter (fun c =>
          (idToStringAndType input (tableAt input r c.2)).isSome)).map
          Prod.fst) ∧
    (∀ (input : ExportInput) (r : Nat) (cols : List (String × Nat)),
      (∀ c ∈ cols, idToStringAndType input (tableAt input r c.2) = none) →
      bindingOfRow input r cols = Except.ok []) ∧
    (∀ (input : ExportInput) (cols : List (String × Nat))
       (rows : List Nat) (poll : Nat)
       (bs : List (List (String × List (String × String)))) (p : Nat),
      jsonRowsGo input cols none rows poll = (Except.ok bs, p) →
      bs.length = rows.length) ∧
    (∀ (input : ExportInput) (sc : SelectCtx) (lo : LimitOffsetClause),
      ((selectedVariablesToColumnIndices sc.varColMap sc.selectedVars
          false).filterMap (fun oc => oc)) ≠ [] →
      (∀ r ∈ getRowIndices lo input.idTable.length,
        ∀ c ∈ (selectedVariablesToColumnIndices sc.varColMap
          sc.selectedVars false).filterMap (fun oc => oc),
        idToStringAndType input (tableAt input r c.2) = none) →
      ∃ hd : String,
        selectQueryResultToStreamJson input sc lo none =
          { chunks := Chunk.str hd ::
              ((getRowIndices lo input.idTable.length).map
                (fun r => Chunk.jsonRow (decide (r ≠ 0)) []) ++
                [Chunk.str "]\x7d\x7d"]),
            err := none,
            polls := (getRowIndices lo input.idTable.length).length }) := by
  refine ⟨fun input r => bindingOfRow_keys input r,
    fun input r => bindingOfRow_allNone input r,
    fun input cols => jsonRowsGo_ok_length input cols, ?_⟩
  intro input sc lo hne hall
  refine ⟨"\x7b\"head\":\x7b\"vars\":[" ++ joinWith ","
      ((varsWithoutQuestionMark sc.selectedVars).map
        (fun v => "\"" ++ v ++ "\"")) ++
      "]\x7d,\"results\":\x7b\"bindings\":[", ?_⟩
  unfold selectQueryResultToStreamJson
  dsimp only
  rw [if_neg (fun h0 => hne (List.length_eq_zero.mp h0))]
  rw [runRows_congr_total _
    (fun r => [Chunk.jsonRow (decide (r ≠ 0)) []])
    (getRowIndices lo input.idTable.length)
    (fun r hr => by
      rw [bindingOfRow_allNone input r _ (hall r hr)]) 0]
  dsimp only
  rw [flatten_map_singleton, List.cons_append]

/-- Input for the claim C10 witness: one row whose first column is the
Undefined id and whose second column is the integer 7. -/
def c10in : ExportInput := { idTable := [[Id.undef, Id.intId 7]] }

/-- The two selected columns of the claim C10 witness. -/
def c10cols : List (String × Nat) := [("x", 0), ("y", 1)]

/-- The binding object the claim C10 witness row produces: only the
resolvable column `y` appears. -/
def c10bs : List (String × List (String × String)) :=
  [("y", [("value", "7"), ("type", "literal"),
          ("datatype", XSD_INT_TYPE)])]

/-- Input for the streaming part of the claim C10 witness: a one-row
table whose only cell is the Undefined id. -/
def c10nin : ExportInput := { idTable := [[Id.undef]] }

/-- Select context for the streaming part of the claim C10 witness. -/
def c10sc : SelectCtx :=
  { selectedVars := ["?x"], varColMap := [("?x", 0)] }

/-- Witness for claim C10 at the concrete inputs: the keys of the
witness row's binding object are exactly its resolvable columns, an
all-Undefined row binds to the empty object without error, the
buffered loop yields one binding per row, and the streaming export of
the all-Undefined table emits one empty binding-object chunk for its
single row. -/
theorem claimC10_witness :
    (c10bs.map Prod.fst =
      (c10cols.filter (fun c =>
        (idToStringAndType c10in (tableAt c10in 0 c.2)).isSome)).map
        Prod.fst) ∧
    bindingOfRow c10nin 0 [("x", 0)] = Except.ok [] ∧
    ([c10bs]).length = ([0] : List Nat).length ∧
    (∃ hd : String,
      selectQueryResultToStreamJson c10nin c10sc {} none =
        { chunks := Chunk.str hd ::
            ((getRowIndices {} c10nin.idTable.length).map
              (fun r => Chunk.jsonRow (decide (r ≠ 0)) []) ++
              [Chunk.str "]\x7d\x7d"]),
          err := none,
          polls := (getRowIndices {} c10nin.idTable.length).length }) :=
  ⟨claimC10_theorem.1 c10in 0 c10cols c10bs rfl,
   claimC10_theorem.2.1 c10nin 0 [("x", 0)] (by decide),
   claimC10_theorem.2.2.1 c10in c10cols [0] 0 [c10bs] 1 rfl,
   claimC10_theorem.2.2.2 c10nin c10sc {} (by decide) (by decide)⟩

end EX

